import Mathlib

/-!
# Verification of the Cleanvee Compliance Watchdog and PII filter

Shallow embedding of the repository's core components:

* the optimized SLA watchdog `checkSlaCompliance` (scheduled function,
  denormalized single-query design): threshold computation, the indexed
  overdue query, chunked alert deduplication, batched alert creation and
  the checkpoint status batch;
* the naive nested-loop predecessor `checkSlaCompliance` (buildings ×
  checkpoints × logs traversal);
* the PII filter `sanitizeLogForAI` / `pickPaths` together with the
  `AI_SAFE_FIELDS` data policy.

The backing store (Firestore) is modelled as lists of documents; queries
are filters over those lists.  Firestore guarantees used: a range filter
on a field only matches documents where the field is present; document
ids within one collection are unique.  Instants are modelled as integer
milliseconds since the epoch (`Date.getTime` / `Timestamp.toMillis`).
-/

namespace Cleanvee

/-- A document of the `checkpoints` collection.
`last_cleaned_timestamp` is a Firestore `Timestamp` in milliseconds;
`none` models a document in which the field is absent.
`last_cleaned_at` is the denormalized human-readable string; `none`
models absence (the watchdog reads it as `data.last_cleaned_at || "never"`). -/
structure Checkpoint where
  id : String
  building_id : String
  is_active : Bool
  last_cleaned_timestamp : Option Int
  last_cleaned_at : Option String
  current_status : String
  updated_at : Option Int
deriving Repr, DecidableEq

/-- The `details` map the optimized watchdog writes on a new alert. -/
structure AlertDetails where
  hours_overdue : ℚ
  sla_threshold_hours : Int
deriving Repr, DecidableEq

/-- A document of the `alerts` collection.  `details` is `none` for
documents (such as those written by the naive predecessor) that carry no
`details` field.  `created_at` stores the server timestamp assigned at
commit time. -/
structure Alert where
  building_id : String
  checkpoint_id : String
  type : String
  severity : String
  status : String
  message : String
  details : Option AlertDetails
  last_cleaned_at : String
  created_at : Option Int
deriving Repr, DecidableEq

/-- A document of the `cleaning_logs` collection, reduced to the fields
the naive watchdog reads. -/
structure CleaningLogDoc where
  checkpoint_id : String
  created_at : Int
deriving Repr, DecidableEq

/-- A document of the `buildings` collection, reduced to its id. -/
structure BuildingDoc where
  id : String
deriving Repr, DecidableEq

/-- The backing store: one list of documents per collection. -/
structure Store where
  buildings : List BuildingDoc
  checkpoints : List Checkpoint
  cleaning_logs : List CleaningLogDoc
  alerts : List Alert
deriving Repr, DecidableEq

/-! ## Threshold calculator (optimized watchdog, step 1) -/

/-- `const DEFAULT_MAX_GAP_HOURS = 4`. -/
def DEFAULT_MAX_GAP_HOURS : Int := 4

/-- `new Date(now.getTime() - DEFAULT_MAX_GAP_HOURS * 60 * 60 * 1000)`,
in milliseconds. -/
def thresholdMs (nowMs : Int) : Int :=
  nowMs - DEFAULT_MAX_GAP_HOURS * 60 * 60 * 1000

/-! ## Overdue query engine (optimized watchdog, step 2) -/

/-- Whether a document satisfies the Firestore range filter
`last_cleaned_timestamp < cutoff`.  A document missing the field never
matches a range filter on it. -/
def tsLtCutoff : Option Int → Int → Bool
  | some t, cutoff => t < cutoff
  | none, _ => false

/-- `db.collection("checkpoints").where("is_active","==",true)
      .where("last_cleaned_timestamp","<",thresholdTimestamp).get()`. -/
def overdueQuery (cps : List Checkpoint) (cutoff : Int) : List Checkpoint :=
  cps.filter (fun c => c.is_active && tsLtCutoff c.last_cleaned_timestamp cutoff)

/-! ## Alert deduplicator (optimized watchdog, step 3) -/

/-- The `for (let i = 0; i < checkpointIds.length; i += chunkSize)` loop
with `chunkSize = 10`: iteration `j` takes `checkpointIds.slice(10*j, 10*j+10)`. -/
def dedupChunks (ids : List String) : List (List String) :=
  (List.range ((ids.length + 9) / 10)).map (fun j => (ids.drop (10 * j)).take 10)

/-- Predicate of one chunked existence query:
`checkpoint_id in chunk AND type == "SLA_MISSING_CLEAN" AND status == "OPEN"`. -/
def inChunkOpenMissing (chunk : List String) (a : Alert) : Bool :=
  chunk.contains a.checkpoint_id && a.type == "SLA_MISSING_CLEAN" && a.status == "OPEN"

/-- One chunked existence query against the `alerts` collection. -/
def chunkQuery (alerts : List Alert) (chunk : List String) : List Alert :=
  alerts.filter (inChunkOpenMissing chunk)

/-- The keys of `existingAlertsMap`: every `checkpoint_id` appearing in
any chunk query result. -/
def existingAlertIds (alerts : List Alert) (ids : List String) : List String :=
  (((dedupChunks ids).map (chunkQuery alerts)).flatten).map (·.checkpoint_id)

/-! ## Alert writer (optimized watchdog, steps 3 and 4) -/

/-- `parseFloat(((now.getTime() - lastCleanedMs) / (1000*60*60)).toFixed(2))`
scaled by 100: hundredths of an hour, rounded to the nearest hundredth
(half-up), computed exactly on integers.
`(diffMs / 3600000) * 100` rounded is `floor(diffMs / 36000 + 1/2) =
fdiv (2 * diffMs + 36000) 72000`. -/
def hoursOverdueCenti (diffMs : Int) : Int :=
  Int.fdiv (2 * diffMs + 36000) 72000

/-- `hoursOverdue` as the rational number `parseFloat` yields.
`lastCleanedMs = data.last_cleaned_timestamp?.toMillis() || 0`, so an
absent timestamp (and the epoch value 0) are both read as 0. -/
def hoursOverdueOf (nowMs : Int) (ts : Option Int) : ℚ :=
  ((hoursOverdueCenti (nowMs - ts.getD 0) : Int) : ℚ) / 100

/-- `const lastCleanedAt = data.last_cleaned_at || "never"` (the empty
string is falsy in JavaScript). -/
def lastCleanedAtStr : Option String → String
  | some s => if s = "" then "never" else s
  | none => "never"

/-- One element of the `alertsToCreate` array. -/
structure PendingAlert where
  checkpointId : String
  buildingId : String
  lastCleanedAt : String
  hoursOverdue : ℚ
deriving Repr, DecidableEq

/-- The loop over `overdueCheckpointsSnapshot.docs` that skips every
checkpoint already present in `existingAlertsMap` and collects the alert
data for the rest. -/
def alertsToCreate (nowMs : Int) (overdue : List Checkpoint)
    (existing : List String) : List PendingAlert :=
  (overdue.filter (fun c => !(existing.contains c.id))).map (fun c =>
    { checkpointId := c.id
      buildingId := c.building_id
      lastCleanedAt := lastCleanedAtStr c.last_cleaned_at
      hoursOverdue := hoursOverdueOf nowMs c.last_cleaned_timestamp })

/-- The alert document `batch.set` writes for one pending alert. -/
def mkAlert (nowMs : Int) (p : PendingAlert) : Alert :=
  { building_id := p.buildingId
    checkpoint_id := p.checkpointId
    type := "SLA_MISSING_CLEAN"
    severity := "MEDIUM"
    status := "OPEN"
    message := "Area has not been cleaned in " ++ toString p.hoursOverdue
      ++ " hours (SLA: 4h)."
    details := some { hours_overdue := p.hoursOverdue
                      sla_threshold_hours := DEFAULT_MAX_GAP_HOURS }
    last_cleaned_at := p.lastCleanedAt
    created_at := some nowMs }

/-- One write operation inside a committed batch. -/
inductive WriteOp where
  | setAlert (a : Alert)
  | updateCheckpointStatus (checkpointId : String) (newStatus : String)
deriving Repr, DecidableEq

/-- The deduplicated list of alerts one invocation will create: the
composition threshold → overdue query → chunked dedup → skip loop. -/
def watchdogPending (nowMs : Int) (db : Store) : List PendingAlert :=
  let overdue := overdueQuery db.checkpoints (thresholdMs nowMs)
  if overdue.isEmpty then []
  else alertsToCreate nowMs overdue (existingAlertIds db.alerts (overdue.map (·.id)))

/-- The second batch: `current_status: "OVERDUE", updated_at: serverTimestamp()`
for each alerted checkpoint. -/
def applyStatusBatch (nowMs : Int) (cps : List Checkpoint) (ids : List String) :
    List Checkpoint :=
  cps.map (fun c =>
    if ids.contains c.id then
      { c with current_status := "OVERDUE", updated_at := some nowMs }
    else c)

/-- One full successful invocation of the optimized `checkSlaCompliance`:
returns the post-state of the store and the list of committed write
batches, in commit order.  The two early returns of the source (empty
overdue set, all-duplicate set) both commit nothing; otherwise the first
batch holds one `set` per new alert (applied to `alerts`) and the second
batch the status updates (applied to `checkpoints`). -/
def runWatchdog (nowMs : Int) (db : Store) : Store × List (List WriteOp) :=
  if (watchdogPending nowMs db).isEmpty then (db, [])
  else
    ({ db with
        alerts := db.alerts ++ (watchdogPending nowMs db).map (mkAlert nowMs)
        checkpoints := applyStatusBatch nowMs db.checkpoints
          ((watchdogPending nowMs db).map (·.checkpointId)) },
     [((watchdogPending nowMs db).map (mkAlert nowMs)).map WriteOp.setAlert,
      ((watchdogPending nowMs db).map (·.checkpointId)).map
        (fun cid => WriteOp.updateCheckpointStatus cid "OVERDUE")])

/-! ## Failure model

Each `await` on the backing store is a point where the call may throw;
the `try/catch` rethrows, so the invocation fails.  A `FailSpec` says
which store calls throw during one invocation. -/

structure FailSpec where
  overdueQueryFails : Bool
  chunkFails : Nat → Bool
  alertCommitFails : Bool
  statusCommitFails : Bool

/-- Result of one invocation: `ok` on success, `failed` on a rethrown
error; both carry the store as left behind by the invocation. -/
inductive Outcome where
  | ok (db : Store)
  | failed (db : Store)
deriving Repr

/-- The sequential chunk loop: chunk `i` throws when `fail i`; results of
the successful prefix are merged into `existingAlertsMap`. -/
def chunkQueriesE (fail : Nat → Bool) (alerts : List Alert) :
    Nat → List (List String) → Except Unit (List Alert)
  | _, [] => Except.ok []
  | i, c :: cs =>
    if fail i then Except.error ()
    else
      match chunkQueriesE fail alerts (i + 1) cs with
      | Except.error e => Except.error e
      | Except.ok rest => Except.ok (chunkQuery alerts c ++ rest)

/-- One invocation of the optimized watchdog under a failure specification.
Mirrors the source's control flow: overdue query, empty short-circuit,
chunk loop, skip loop, all-duplicate short-circuit, alert batch commit,
status batch commit. -/
def runWatchdogE (fail : FailSpec) (nowMs : Int) (db : Store) : Outcome :=
  if fail.overdueQueryFails then Outcome.failed db
  else
    let overdue := overdueQuery db.checkpoints (thresholdMs nowMs)
    if overdue.isEmpty then Outcome.ok db
    else
      let ids := overdue.map (·.id)
      match chunkQueriesE fail.chunkFails db.alerts 0 (dedupChunks ids) with
      | Except.error _ => Outcome.failed db
      | Except.ok found =>
        let pending := alertsToCreate nowMs overdue (found.map (·.checkpoint_id))
        if pending.isEmpty then Outcome.ok db
        else if fail.alertCommitFails then Outcome.failed db
        else
          let db1 : Store := { db with alerts := db.alerts ++ pending.map (mkAlert nowMs) }
          if fail.statusCommitFails then Outcome.failed db1
          else Outcome.ok { db1 with
            checkpoints := applyStatusBatch nowMs db1.checkpoints (pending.map (·.checkpointId)) }

/-! ## Basic lemmas about the stages -/

lemma tsLtCutoff_iff (ts : Option Int) (cutoff : Int) :
    tsLtCutoff ts cutoff = true ↔ ∃ t, ts = some t ∧ t < cutoff := by
  cases ts <;> simp [tsLtCutoff]

lemma mem_overdueQuery (cps : List Checkpoint) (cutoff : Int) (c : Checkpoint) :
    c ∈ overdueQuery cps cutoff ↔
      c ∈ cps ∧ c.is_active = true ∧ ∃ t, c.last_cleaned_timestamp = some t ∧ t < cutoff := by
  simp [overdueQuery, List.mem_filter, tsLtCutoff_iff, and_assoc]

/-- Claim C2: the cutoff is `now − 4h`, and the overdue query returns
exactly the active checkpoints whose (present) `last_cleaned_timestamp`
is strictly before the cutoff; one exactly at the cutoff is not flagged,
one instant (millisecond) earlier is flagged. -/
theorem overdue_query_exact (nowMs : Int) (cps : List Checkpoint) :
    thresholdMs nowMs = nowMs - 4 * 60 * 60 * 1000
    ∧ (∀ c, c ∈ overdueQuery cps (thresholdMs nowMs) ↔
        c ∈ cps ∧ c.is_active = true ∧
          ∃ t, c.last_cleaned_timestamp = some t ∧ t < thresholdMs nowMs)
    ∧ (∀ c ∈ cps, c.last_cleaned_timestamp = some (thresholdMs nowMs) →
        c ∉ overdueQuery cps (thresholdMs nowMs))
    ∧ (∀ c ∈ cps, c.is_active = true →
        c.last_cleaned_timestamp = some (thresholdMs nowMs - 1) →
        c ∈ overdueQuery cps (thresholdMs nowMs)) := by
  refine ⟨rfl, fun c => mem_overdueQuery .., ?_, ?_⟩
  · intro c _ hts hmem
    rcases (mem_overdueQuery ..).mp hmem with ⟨-, -, t, ht, hlt⟩
    rw [hts] at ht
    cases ht
    exact absurd hlt (lt_irrefl _)
  · intro c hc hact hts
    exact (mem_overdueQuery ..).mpr ⟨hc, hact, _, hts, by omega⟩

lemma contains_true_iff {l : List String} {a : String} :
    l.contains a = true ↔ a ∈ l := List.elem_iff

lemma contains_false_iff {l : List String} {a : String} :
    l.contains a = false ↔ a ∉ l := by
  rw [Bool.eq_false_iff]
  exact not_congr contains_true_iff

lemma dedupChunks_nil : dedupChunks [] = [] := rfl

lemma dedupChunks_cons (ids : List String) (h : ids ≠ []) :
    dedupChunks ids = ids.take 10 :: dedupChunks (ids.drop 10) := by
  unfold dedupChunks
  have h1 : 1 ≤ ids.length := List.length_pos.mpr h
  have h2 : (ids.length + 9) / 10 = ((ids.drop 10).length + 9) / 10 + 1 := by
    rw [List.length_drop]; omega
  rw [h2, List.range_succ_eq_map, List.map_cons, List.map_map]
  refine congrArg₂ List.cons (by simp) ?_
  refine List.map_congr_left (fun j hj => ?_)
  simp only [Function.comp_apply, List.drop_drop]
  congr 2
  omega

lemma dedupChunks_flatten_aux :
    ∀ (n : Nat) (ids : List String), ids.length ≤ n → (dedupChunks ids).flatten = ids := by
  intro n
  induction n with
  | zero =>
    intro ids h
    have : ids = [] := List.length_eq_zero.mp (Nat.le_zero.mp h)
    subst this; rfl
  | succ n ih =>
    intro ids h
    cases ids with
    | nil => rfl
    | cons a t =>
      rw [dedupChunks_cons _ (by simp), List.flatten_cons,
        ih ((a :: t).drop 10) (by simp only [List.length_drop]; simp at h ⊢; omega)]
      exact List.take_append_drop 10 (a :: t)

lemma dedupChunks_flatten (ids : List String) : (dedupChunks ids).flatten = ids :=
  dedupChunks_flatten_aux ids.length ids le_rfl

lemma mem_existingAlertIds (alerts : List Alert) (ids : List String) (cid : String) :
    cid ∈ existingAlertIds alerts ids ↔
      cid ∈ ids ∧ ∃ a ∈ alerts, a.checkpoint_id = cid ∧
        a.type = "SLA_MISSING_CLEAN" ∧ a.status = "OPEN" := by
  unfold existingAlertIds chunkQuery inChunkOpenMissing
  constructor
  · intro h
    rcases List.mem_map.mp h with ⟨a, haf, rfl⟩
    rcases List.mem_flatten.mp haf with ⟨l, hl, hal⟩
    rcases List.mem_map.mp hl with ⟨chunk, hchunk, rfl⟩
    rcases List.mem_filter.mp hal with ⟨haalerts, hcond⟩
    simp only [Bool.and_eq_true, beq_iff_eq] at hcond
    obtain ⟨⟨hin, hty⟩, hst⟩ := hcond
    have hmemchunk : a.checkpoint_id ∈ chunk := contains_true_iff.mp hin
    have h2 : a.checkpoint_id ∈ (dedupChunks ids).flatten :=
      List.mem_flatten.mpr ⟨chunk, hchunk, hmemchunk⟩
    rw [dedupChunks_flatten] at h2
    exact ⟨h2, a, haalerts, rfl, hty, hst⟩
  · rintro ⟨hidmem, a, ha, rfl, hty, hst⟩
    have h2 : a.checkpoint_id ∈ (dedupChunks ids).flatten := by
      rw [dedupChunks_flatten]; exact hidmem
    rcases List.mem_flatten.mp h2 with ⟨chunk, hchunk, hinc⟩
    refine List.mem_map.mpr ⟨a, ?_, rfl⟩
    refine List.mem_flatten.mpr ⟨_, List.mem_map.mpr ⟨chunk, hchunk, rfl⟩, ?_⟩
    refine List.mem_filter.mpr ⟨ha, ?_⟩
    simp only [Bool.and_eq_true, beq_iff_eq]
    exact ⟨⟨contains_true_iff.mpr hinc, hty⟩, hst⟩

lemma alertsToCreate_map_id (nowMs : Int) (overdue : List Checkpoint)
    (existing : List String) :
    (alertsToCreate nowMs overdue existing).map (·.checkpointId)
      = (overdue.filter (fun c => !(existing.contains c.id))).map (·.id) := by
  unfold alertsToCreate
  rw [List.map_map]
  rfl

lemma mem_alertsToCreate_ids (nowMs : Int) (overdue : List Checkpoint)
    (existing : List String) (cid : String) :
    cid ∈ (alertsToCreate nowMs overdue existing).map (·.checkpointId) ↔
      cid ∈ overdue.map (·.id) ∧ cid ∉ existing := by
  rw [alertsToCreate_map_id]
  constructor
  · intro h
    rcases List.mem_map.mp h with ⟨c, hc, rfl⟩
    rcases List.mem_filter.mp hc with ⟨hover, hnc⟩
    rw [Bool.not_eq_true'] at hnc
    exact ⟨List.mem_map.mpr ⟨c, hover, rfl⟩, contains_false_iff.mp hnc⟩
  · rintro ⟨hid, hnot⟩
    rcases List.mem_map.mp hid with ⟨c, hc, rfl⟩
    refine List.mem_map.mpr ⟨c, List.mem_filter.mpr ⟨hc, ?_⟩, rfl⟩
    rw [Bool.not_eq_true']
    exact contains_false_iff.mpr hnot

/-- Claim C3: for `n` overdue identifiers the deduplicator issues
`⌈n/10⌉` membership-test queries (`(n+9)/10` in natural division), each
over a chunk of at most 10 identifiers — 3 queries for 25 identifiers —
and the alert-creation list is exactly the overdue set minus the union
of checkpoint identifiers appearing in any chunk query result. -/
theorem dedup_chunking (nowMs : Int) (alerts : List Alert) (overdue : List Checkpoint) :
    (dedupChunks (overdue.map (·.id))).length = ((overdue.map (·.id)).length + 9) / 10
    ∧ ((overdue.map (·.id)).length = 25 → (dedupChunks (overdue.map (·.id))).length = 3)
    ∧ (∀ chunk ∈ dedupChunks (overdue.map (·.id)), chunk.length ≤ 10)
    ∧ (∀ cid, cid ∈ existingAlertIds alerts (overdue.map (·.id)) ↔
        ∃ chunk ∈ dedupChunks (overdue.map (·.id)),
          ∃ a ∈ chunkQuery alerts chunk, a.checkpoint_id = cid)
    ∧ (∀ cid,
        cid ∈ (alertsToCreate nowMs overdue
          (existingAlertIds alerts (overdue.map (·.id)))).map (·.checkpointId)
        ↔ cid ∈ overdue.map (·.id) ∧
            cid ∉ existingAlertIds alerts (overdue.map (·.id))) := by
  refine ⟨?_, ?_, ?_, ?_, fun cid => mem_alertsToCreate_ids ..⟩
  · simp [dedupChunks]
  · intro h25
    simp [dedupChunks, h25]
  · intro chunk hchunk
    rcases List.mem_map.mp hchunk with ⟨j, _, rfl⟩
    simp [List.length_take]
  · intro cid
    unfold existingAlertIds
    constructor
    · intro h
      rcases List.mem_map.mp h with ⟨a, haf, rfl⟩
      rcases List.mem_flatten.mp haf with ⟨l, hl, hal⟩
      rcases List.mem_map.mp hl with ⟨chunk, hchunk, rfl⟩
      exact ⟨chunk, hchunk, a, hal, rfl⟩
    · rintro ⟨chunk, hchunk, a, ha, rfl⟩
      exact List.mem_map.mpr
        ⟨a, List.mem_flatten.mpr ⟨_, List.mem_map.mpr ⟨chunk, hchunk, rfl⟩, ha⟩, rfl⟩

/-- 25 distinct overdue checkpoints used by the C3 witness. -/
def cps25 : List Checkpoint :=
  (List.range 25).map (fun i => {
    id := "cp" ++ toString i, building_id := "b1", is_active := true
    last_cleaned_timestamp := some 0, last_cleaned_at := none
    current_status := "CLEAN", updated_at := none })

theorem dedup_chunking_witness :
    (cps25.map (·.id)).length = 25 ∧ (dedupChunks (cps25.map (·.id))).length = 3 :=
  ⟨by decide, (dedup_chunking 0 [] cps25).2.1 (by decide)⟩

/-! ## Error propagation -/

lemma chunkQueriesE_error (fail : Nat → Bool) (alerts : List Alert) :
    ∀ (cs : List (List String)) (start : Nat),
      (∃ j, j < cs.length ∧ fail (start + j) = true) →
      chunkQueriesE fail alerts start cs = Except.error () := by
  intro cs
  induction cs with
  | nil =>
    rintro start ⟨j, hj, -⟩
    exact absurd hj (by simp)
  | cons c cs ih =>
    rintro start ⟨j, hj, hf⟩
    unfold chunkQueriesE
    by_cases h0 : fail start = true
    · simp [h0]
    · cases j with
      | zero => exact absurd hf (by simpa using h0)
      | succ j =>
        have herr : chunkQueriesE fail alerts (start + 1) cs = Except.error () := by
          refine ih (start + 1) ⟨j, ?_, ?_⟩
          · simpa using Nat.lt_of_succ_lt_succ hj
          · rw [show start + 1 + j = start + (j + 1) by omega]; exact hf
        simp [h0, herr]

/-- Claim C6: if the overdue query fails, or any chunked dedup query
(index within the chunk list) fails, the invocation fails and the store
is left unchanged — no write happens before the failure point. -/
theorem query_failure_aborts_unchanged (fail : FailSpec) (nowMs : Int) (db : Store)
    (h : fail.overdueQueryFails = true ∨
      ∃ j, j < (dedupChunks ((overdueQuery db.checkpoints
          (thresholdMs nowMs)).map (·.id))).length ∧ fail.chunkFails j = true) :
    runWatchdogE fail nowMs db = Outcome.failed db := by
  rcases h with hq | ⟨j, hj, hf⟩
  · simp [runWatchdogE, hq]
  · unfold runWatchdogE
    by_cases hq : fail.overdueQueryFails = true
    · simp [hq]
    · rw [if_neg hq]
      have hne : overdueQuery db.checkpoints (thresholdMs nowMs) ≠ [] := by
        intro hempty
        rw [hempty] at hj
        simp [dedupChunks_nil] at hj
      rw [if_neg (by simpa [List.isEmpty_iff] using hne)]
      have herr := chunkQueriesE_error fail.chunkFails db.alerts
        (dedupChunks ((overdueQuery db.checkpoints (thresholdMs nowMs)).map (·.id))) 0
        ⟨j, hj, by simpa using hf⟩
      simp [herr]

/-- Store with a single overdue checkpoint, used by several witnesses. -/
def dbOne : Store :=
  { buildings := [{ id := "b1" }]
    checkpoints := [{ id := "cp1", building_id := "b1", is_active := true
                      last_cleaned_timestamp := some 0, last_cleaned_at := some "never"
                      current_status := "CLEAN", updated_at := none }]
    cleaning_logs := []
    alerts := [] }

theorem query_failure_aborts_unchanged_witness :
    (∃ j, j < (dedupChunks ((overdueQuery dbOne.checkpoints
        (thresholdMs 100000000)).map (·.id))).length ∧ (fun _ => true) j = true)
    ∧ runWatchdogE
        { overdueQueryFails := false, chunkFails := fun _ => true
          alertCommitFails := false, statusCommitFails := false }
        100000000 dbOne = Outcome.failed dbOne :=
  ⟨⟨0, by decide, rfl⟩,
    query_failure_aborts_unchanged
      { overdueQueryFails := false, chunkFails := fun _ => true
        alertCommitFails := false, statusCommitFails := false }
      100000000 dbOne (Or.inr ⟨0, by decide, rfl⟩)⟩

/-- Claim C7: when the overdue query returns no checkpoint the invocation
succeeds (even under a failure specification that would fail every chunk
query or batch commit — those calls are never issued), commits no write
batch, and leaves the store unchanged. -/
theorem empty_overdue_short_circuit (fail : FailSpec) (nowMs : Int) (db : Store)
    (hq : fail.overdueQueryFails = false)
    (hempty : overdueQuery db.checkpoints (thresholdMs nowMs) = []) :
    runWatchdogE fail nowMs db = Outcome.ok db ∧ runWatchdog nowMs db = (db, []) := by
  constructor
  · unfold runWatchdogE
    rw [if_neg (by simp [hq]), hempty]
    rfl
  · unfold runWatchdog watchdogPending
    rw [hempty]
    rfl

/-- Store in which every checkpoint was cleaned just now. -/
def dbCompliant : Store :=
  { buildings := [{ id := "b1" }]
    checkpoints := [{ id := "cp1", building_id := "b1", is_active := true
                      last_cleaned_timestamp := some 100000000, last_cleaned_at := some "now"
                      current_status := "CLEAN", updated_at := none }]
    cleaning_logs := []
    alerts := [] }

theorem empty_overdue_short_circuit_witness :
    ((fun _ : Unit => (false : Bool)) () = false
      ∧ overdueQuery dbCompliant.checkpoints (thresholdMs 100000000) = [])
    ∧ runWatchdogE
        { overdueQueryFails := false, chunkFails := fun _ => true
          alertCommitFails := true, statusCommitFails := true }
        100000000 dbCompliant = Outcome.ok dbCompliant
      ∧ runWatchdog 100000000 dbCompliant = (dbCompliant, []) :=
  ⟨⟨rfl, by decide⟩,
    empty_overdue_short_circuit
      { overdueQueryFails := false, chunkFails := fun _ => true
        alertCommitFails := true, statusCommitFails := true }
      100000000 dbCompliant rfl (by decide)⟩

/-- A checkpoint for witnesses. -/
def wCp (i : String) (b : String) (act : Bool) (ts : Option Int) : Checkpoint :=
  { id := i, building_id := b, is_active := act, last_cleaned_timestamp := ts
    last_cleaned_at := some "2026-01-01", current_status := "CLEAN", updated_at := none }

theorem overdue_query_exact_witness :
    (wCp "cp1" "b1" true (some (thresholdMs 0 - 1)) ∈ [wCp "cp1" "b1" true (some (thresholdMs 0 - 1))]
      ∧ (wCp "cp1" "b1" true (some (thresholdMs 0 - 1))).is_active = true
      ∧ (wCp "cp1" "b1" true (some (thresholdMs 0 - 1))).last_cleaned_timestamp = some (thresholdMs 0 - 1))
    ∧ wCp "cp1" "b1" true (some (thresholdMs 0 - 1)) ∈
        overdueQuery [wCp "cp1" "b1" true (some (thresholdMs 0 - 1))] (thresholdMs 0) :=
  ⟨⟨by decide, by decide, by decide⟩,
    (overdue_query_exact 0 [wCp "cp1" "b1" true (some (thresholdMs 0 - 1))]).2.2.2
      (wCp "cp1" "b1" true (some (thresholdMs 0 - 1))) (by decide) (by decide) (by decide)⟩

/-! ## Hours-overdue details (C4) -/

/-- Claim C4: every created alert's `details` carry
`hours_overdue = (now − last_serviced_instant) / 3600s` (rounded to two
decimals by `toFixed(2)`) and `sla_threshold_hours = 4`, where an absent
or epoch `last_serviced_instant` is read as 0 (never serviced); for
`now = T`, `last_cleaned_timestamp = T − 5h` the hours overdue are
exactly `5.00`. -/
theorem alert_details_hours_overdue (nowMs : Int) (overdue : List Checkpoint)
    (existing : List String) :
    (∀ p ∈ alertsToCreate nowMs overdue existing,
        (mkAlert nowMs p).details =
          some { hours_overdue := p.hoursOverdue, sla_threshold_hours := 4 }
        ∧ ∃ c ∈ overdue, p.checkpointId = c.id
            ∧ p.hoursOverdue = hoursOverdueOf nowMs c.last_cleaned_timestamp)
    ∧ hoursOverdueOf nowMs none = (hoursOverdueCenti nowMs : ℚ) / 100
    ∧ hoursOverdueOf nowMs (some 0) = (hoursOverdueCenti nowMs : ℚ) / 100
    ∧ (∀ T : Int, hoursOverdueOf T (some (T - 5 * 60 * 60 * 1000)) = 5) := by
  refine ⟨?_, by simp [hoursOverdueOf], by simp [hoursOverdueOf], ?_⟩
  · intro p hp
    rcases List.mem_map.mp hp with ⟨c, hc, rfl⟩
    rcases List.mem_filter.mp hc with ⟨hcover, -⟩
    exact ⟨rfl, c, hcover, rfl, rfl⟩
  · intro T
    unfold hoursOverdueOf
    have h1 : T - (Option.getD (some (T - 5 * 60 * 60 * 1000)) 0) = 18000000 := by
      show T - (T - 5 * 60 * 60 * 1000) = 18000000
      omega
    rw [h1]
    have h2 : hoursOverdueCenti 18000000 = 500 := by decide
    rw [h2]
    norm_num

theorem alert_details_hours_overdue_witness :
    hoursOverdueOf 0 (some (0 - 5 * 60 * 60 * 1000)) = 5 :=
  (alert_details_hours_overdue 0 [] []).2.2.2 0

/-! ## Batch structure (C5) -/

lemma existingAlertIds_nil (ids : List String) : existingAlertIds [] ids = [] := by
  unfold existingAlertIds chunkQuery
  simp

lemma runWatchdog_batches_eq (nowMs : Int) (db : Store)
    (h : watchdogPending nowMs db ≠ []) :
    (runWatchdog nowMs db).2 =
      [(watchdogPending nowMs db).map (fun p => WriteOp.setAlert (mkAlert nowMs p)),
       (watchdogPending nowMs db).map
         (fun p => WriteOp.updateCheckpointStatus p.checkpointId "OVERDUE")] := by
  unfold runWatchdog
  rw [if_neg (by simpa [List.isEmpty_iff] using h)]
  simp [List.map_map]

/-- Claim C5 (amended): the alert writer commits ALL new alerts as one
single write batch with exactly one set operation per alert, followed by
one single status batch — it performs no 500-operation splitting. -/
theorem alert_commit_single_batch (nowMs : Int) (db : Store)
    (h : watchdogPending nowMs db ≠ []) :
    (runWatchdog nowMs db).2 =
      [(watchdogPending nowMs db).map (fun p => WriteOp.setAlert (mkAlert nowMs p)),
       (watchdogPending nowMs db).map
         (fun p => WriteOp.updateCheckpointStatus p.checkpointId "OVERDUE")]
    ∧ (runWatchdog nowMs db).2.map List.length =
      [(watchdogPending nowMs db).length, (watchdogPending nowMs db).length] := by
  refine ⟨runWatchdog_batches_eq nowMs db h, ?_⟩
  rw [runWatchdog_batches_eq nowMs db h]
  simp

theorem alert_commit_single_batch_witness :
    watchdogPending 100000000 dbOne ≠ [] ∧
      (runWatchdog 100000000 dbOne).2.map List.length =
        [(watchdogPending 100000000 dbOne).length,
         (watchdogPending 100000000 dbOne).length] :=
  ⟨by decide, (alert_commit_single_batch 100000000 dbOne (by decide)).2⟩

/-- 501 overdue checkpoints: more alerts than the 500-operation batch
ceiling the spec postulates. -/
def db501 : Store :=
  { buildings := []
    checkpoints := (List.range 501).map (fun i => {
      id := "cp" ++ toString i, building_id := "b1", is_active := true
      last_cleaned_timestamp := some 0, last_cleaned_at := none
      current_status := "CLEAN", updated_at := none })
    cleaning_logs := []
    alerts := [] }

set_option maxRecDepth 8000 in
lemma db501_overdue :
    overdueQuery db501.checkpoints (thresholdMs 100000000) = db501.checkpoints := by
  apply List.filter_eq_self.mpr
  intro c hc
  rcases List.mem_map.mp hc with ⟨i, -, rfl⟩
  show (true && tsLtCutoff (some 0) (thresholdMs 100000000)) = true
  decide

set_option maxRecDepth 8000 in
lemma db501_pending_length : (watchdogPending 100000000 db501).length = 501 := by
  unfold watchdogPending
  rw [db501_overdue]
  have hck : db501.checkpoints.length = 501 := by simp [db501]
  have hne : ¬(db501.checkpoints.isEmpty = true) := by
    intro h
    rw [List.isEmpty_iff] at h
    rw [h] at hck
    exact absurd hck (by decide)
  have halerts : db501.alerts = [] := rfl
  rw [if_neg hne, halerts, existingAlertIds_nil]
  unfold alertsToCreate
  have hfil : db501.checkpoints.filter (fun c => !(List.contains [] c.id)) = db501.checkpoints :=
    List.filter_eq_self.mpr (fun c _ => rfl)
  rw [hfil, List.length_map, hck]

/-- Claim C5 counterexample: with 501 overdue checkpoints and no open
alerts, the run creates 501 alerts and commits them in a single batch of
501 set operations (the status batch also has 501 operations): no batch
is bounded by 500 and no splitting happens. -/
theorem single_oversized_batch_counterexample :
    (watchdogPending 100000000 db501).length = 501
    ∧ (runWatchdog 100000000 db501).2.map List.length = [501, 501] := by
  refine ⟨db501_pending_length, ?_⟩
  have hne : watchdogPending 100000000 db501 ≠ [] := by
    intro h
    have := db501_pending_length
    rw [h] at this
    exact absurd this (by decide)
  rw [runWatchdog_batches_eq 100000000 db501 hne]
  simp [db501_pending_length]

/-! ## Frame of a run over the checkpoints collection (C8) -/

lemma runWatchdog_of_pending_nil (nowMs : Int) (db : Store)
    (h : watchdogPending nowMs db = []) : runWatchdog nowMs db = (db, []) := by
  unfold runWatchdog
  rw [h]
  rfl

lemma runWatchdog_alerts_eq (nowMs : Int) (db : Store)
    (h : watchdogPending nowMs db ≠ []) :
    (runWatchdog nowMs db).1.alerts
      = db.alerts ++ (watchdogPending nowMs db).map (mkAlert nowMs) := by
  unfold runWatchdog
  rw [if_neg (by simpa [List.isEmpty_iff] using h)]

lemma runWatchdog_checkpoints_eq (nowMs : Int) (db : Store)
    (h : watchdogPending nowMs db ≠ []) :
    (runWatchdog nowMs db).1.checkpoints
      = applyStatusBatch nowMs db.checkpoints
          ((watchdogPending nowMs db).map (·.checkpointId)) := by
  unfold runWatchdog
  rw [if_neg (by simpa [List.isEmpty_iff] using h)]

lemma runWatchdog_buildings_eq (nowMs : Int) (db : Store) :
    (runWatchdog nowMs db).1.buildings = db.buildings := by
  unfold runWatchdog
  by_cases h : (watchdogPending nowMs db).isEmpty = true
  · rw [if_pos h]
  · rw [if_neg h]

lemma runWatchdog_logs_eq (nowMs : Int) (db : Store) :
    (runWatchdog nowMs db).1.cleaning_logs = db.cleaning_logs := by
  unfold runWatchdog
  by_cases h : (watchdogPending nowMs db).isEmpty = true
  · rw [if_pos h]
  · rw [if_neg h]

/-- Claim C8: after a run, the new alerts' checkpoint ids are exactly the
deduplicated pending ids; the checkpoints collection keeps the same
documents in the same order (no deletion), every checkpoint keeps its
`last_cleaned_timestamp`, and `current_status` becomes OVERDUE exactly
for the checkpoints that received a new alert, staying untouched
otherwise. -/
theorem status_update_frame (nowMs : Int) (db : Store) :
    ((runWatchdog nowMs db).1.alerts.drop db.alerts.length).map (·.checkpoint_id)
        = (watchdogPending nowMs db).map (·.checkpointId)
    ∧ (runWatchdog nowMs db).1.checkpoints.map (·.id) = db.checkpoints.map (·.id)
    ∧ (runWatchdog nowMs db).1.checkpoints.map (·.last_cleaned_timestamp)
        = db.checkpoints.map (·.last_cleaned_timestamp)
    ∧ (runWatchdog nowMs db).1.checkpoints.map (·.current_status)
        = db.checkpoints.map (fun c =>
            if ((watchdogPending nowMs db).map (·.checkpointId)).contains c.id
            then "OVERDUE" else c.current_status)
    ∧ (runWatchdog nowMs db).1.checkpoints.length = db.checkpoints.length := by
  by_cases hp : watchdogPending nowMs db = []
  · rw [runWatchdog_of_pending_nil nowMs db hp, hp]
    refine ⟨by simp, rfl, rfl, ?_, rfl⟩
    refine (List.map_congr_left (fun c _ => ?_)).symm
    rfl
  · rw [runWatchdog_alerts_eq nowMs db hp, runWatchdog_checkpoints_eq nowMs db hp]
    refine ⟨?_, ?_, ?_, ?_, ?_⟩
    · rw [List.drop_left, List.map_map]
      exact List.map_congr_left (fun p _ => rfl)
    · unfold applyStatusBatch
      rw [List.map_map]
      refine List.map_congr_left (fun c _ => ?_)
      by_cases hc : ((watchdogPending nowMs db).map (·.checkpointId)).contains c.id = true
      · rw [Function.comp_apply, if_pos hc]
      · rw [Function.comp_apply, if_neg hc]
    · unfold applyStatusBatch
      rw [List.map_map]
      refine List.map_congr_left (fun c _ => ?_)
      by_cases hc : ((watchdogPending nowMs db).map (·.checkpointId)).contains c.id = true
      · rw [Function.comp_apply, if_pos hc]
      · rw [Function.comp_apply, if_neg hc]
    · unfold applyStatusBatch
      rw [List.map_map]
      refine List.map_congr_left (fun c _ => ?_)
      by_cases hc : ((watchdogPending nowMs db).map (·.checkpointId)).contains c.id = true
      · rw [Function.comp_apply, if_pos hc, if_pos hc]
      · rw [Function.comp_apply, if_neg hc, if_neg hc]
    · unfold applyStatusBatch
      rw [List.length_map]

/-! ## The at-most-one-OPEN-alert invariant and idempotence (C1) -/

/-- An OPEN alert of type SLA_MISSING_CLEAN for the given checkpoint. -/
def isOpenMissingFor (cid : String) (a : Alert) : Bool :=
  a.checkpoint_id == cid && a.type == "SLA_MISSING_CLEAN" && a.status == "OPEN"

/-- Number of OPEN SLA_MISSING_CLEAN alerts for a checkpoint. -/
def countOpen (alerts : List Alert) (cid : String) : Nat :=
  alerts.countP (isOpenMissingFor cid)

lemma countOpen_pos_iff (alerts : List Alert) (cid : String) :
    0 < countOpen alerts cid ↔
      ∃ a ∈ alerts, a.checkpoint_id = cid ∧
        a.type = "SLA_MISSING_CLEAN" ∧ a.status = "OPEN" := by
  unfold countOpen
  rw [List.countP_pos_iff]
  constructor
  · rintro ⟨a, ha, hcond⟩
    simp only [isOpenMissingFor, Bool.and_eq_true, beq_iff_eq] at hcond
    exact ⟨a, ha, hcond.1.1, hcond.1.2, hcond.2⟩
  · rintro ⟨a, ha, h1, h2, h3⟩
    exact ⟨a, ha, by simp [isOpenMissingFor, h1, h2, h3]⟩

lemma countOpen_append (l1 l2 : List Alert) (cid : String) :
    countOpen (l1 ++ l2) cid = countOpen l1 cid + countOpen l2 cid :=
  List.countP_append ..

lemma mem_existing_iff_countOpen (alerts : List Alert) (ids : List String)
    (cid : String) (hcid : cid ∈ ids) :
    cid ∈ existingAlertIds alerts ids ↔ 0 < countOpen alerts cid := by
  rw [mem_existingAlertIds, countOpen_pos_iff]
  exact ⟨fun h => h.2, fun h => ⟨hcid, h⟩⟩

lemma isOpenMissingFor_mkAlert (nowMs : Int) (p : PendingAlert) (cid : String) :
    isOpenMissingFor cid (mkAlert nowMs p) = (p.checkpointId == cid) := by
  simp [isOpenMissingFor, mkAlert]

lemma countOpen_mkAlerts (nowMs : Int) (cid : String) :
    ∀ (pending : List PendingAlert),
      countOpen (pending.map (mkAlert nowMs)) cid
        = (pending.map (·.checkpointId)).countP (fun x => x == cid)
  | [] => rfl
  | p :: t => by
    unfold countOpen
    rw [List.map_cons, List.map_cons, List.countP_cons, List.countP_cons,
      isOpenMissingFor_mkAlert]
    have ih := countOpen_mkAlerts nowMs cid t
    unfold countOpen at ih
    rw [ih]

lemma countP_beq_eq_count (l : List String) (cid : String) :
    l.countP (fun x => x == cid) = l.count cid := rfl

lemma pendingIds_nodup (nowMs : Int) (overdue : List Checkpoint)
    (existing : List String) (h : (overdue.map (·.id)).Nodup) :
    ((alertsToCreate nowMs overdue existing).map (·.checkpointId)).Nodup := by
  rw [alertsToCreate_map_id]
  exact List.Nodup.sublist (List.Sublist.map _ (List.filter_sublist _)) h

lemma watchdogPending_of_overdue_empty (nowMs : Int) (db : Store)
    (h : overdueQuery db.checkpoints (thresholdMs nowMs) = []) :
    watchdogPending nowMs db = [] := by
  unfold watchdogPending
  rw [h]
  rfl

lemma watchdogPending_eq (nowMs : Int) (db : Store)
    (h : overdueQuery db.checkpoints (thresholdMs nowMs) ≠ []) :
    watchdogPending nowMs db
      = alertsToCreate nowMs (overdueQuery db.checkpoints (thresholdMs nowMs))
          (existingAlertIds db.alerts
            ((overdueQuery db.checkpoints (thresholdMs nowMs)).map (·.id))) := by
  unfold watchdogPending
  rw [if_neg (by simpa [List.isEmpty_iff] using h)]

lemma overdueQuery_applyStatusBatch (nowMs cutoff : Int) (cps : List Checkpoint)
    (ids2 : List String) :
    overdueQuery (applyStatusBatch nowMs cps ids2) cutoff
      = (overdueQuery cps cutoff).map (fun c =>
          if ids2.contains c.id then
            { c with current_status := "OVERDUE", updated_at := some nowMs }
          else c) := by
  unfold applyStatusBatch overdueQuery
  rw [List.filter_map]
  congr 1
  refine List.filter_congr (fun c _ => ?_)
  by_cases hc : ids2.contains c.id = true
  · rw [Function.comp_apply, if_pos hc]
  · rw [Function.comp_apply, if_neg hc]

/-- Claim C1: on a store with unique checkpoint ids where each checkpoint
has at most one OPEN SLA_MISSING_CLEAN alert, one watchdog run (i) creates
an alert only for checkpoints with no OPEN SLA_MISSING_CLEAN alert in the
pre-state, (ii) preserves the at-most-one invariant, (iii) leaves exactly
one OPEN alert per overdue checkpoint, and (iv) a second run on the
post-state commits nothing and leaves the store unchanged. -/
theorem watchdog_idempotent_invariant (nowMs : Int) (db : Store)
    (hids : (db.checkpoints.map (·.id)).Nodup)
    (hinv : ∀ cid, countOpen db.alerts cid ≤ 1) :
    (∀ a ∈ (runWatchdog nowMs db).1.alerts.drop db.alerts.length,
        countOpen db.alerts a.checkpoint_id = 0)
    ∧ (∀ cid, countOpen (runWatchdog nowMs db).1.alerts cid ≤ 1)
    ∧ (∀ c ∈ overdueQuery db.checkpoints (thresholdMs nowMs),
        countOpen (runWatchdog nowMs db).1.alerts c.id = 1)
    ∧ runWatchdog nowMs (runWatchdog nowMs db).1 = ((runWatchdog nowMs db).1, []) := by
  by_cases hp : watchdogPending nowMs db = []
  · -- nothing is created: the store is untouched and the second run is the first
    have hrun : runWatchdog nowMs db = (db, []) := runWatchdog_of_pending_nil nowMs db hp
    rw [hrun]
    dsimp only
    refine ⟨by simp, hinv, ?_, hrun⟩
    intro c hc
    have hcid : c.id ∈ (overdueQuery db.checkpoints (thresholdMs nowMs)).map (·.id) :=
      List.mem_map.mpr ⟨c, hc, rfl⟩
    have hovne : overdueQuery db.checkpoints (thresholdMs nowMs) ≠ [] := by
      intro h
      rw [h] at hc
      exact absurd hc (List.not_mem_nil c)
    rw [watchdogPending_eq nowMs db hovne] at hp
    unfold alertsToCreate at hp
    rw [List.map_eq_nil_iff, List.filter_eq_nil_iff] at hp
    have hcin := hp c hc
    have hct : (existingAlertIds db.alerts
        ((overdueQuery db.checkpoints (thresholdMs nowMs)).map (·.id))).contains c.id = true := by
      cases hb : (existingAlertIds db.alerts
          ((overdueQuery db.checkpoints (thresholdMs nowMs)).map (·.id))).contains c.id
      · exact absurd (by rw [hb]; decide) hcin
      · rfl
    have hpos : 0 < countOpen db.alerts c.id :=
      (mem_existing_iff_countOpen db.alerts _ c.id hcid).mp (contains_true_iff.mp hct)
    have hle := hinv c.id
    omega
  · -- at least one alert is created
    have hovne : overdueQuery db.checkpoints (thresholdMs nowMs) ≠ [] := by
      intro h
      exact hp (watchdogPending_of_overdue_empty nowMs db h)
    have hpend := watchdogPending_eq nowMs db hovne
    have hidnodup : ((overdueQuery db.checkpoints (thresholdMs nowMs)).map (·.id)).Nodup :=
      List.Nodup.sublist (List.Sublist.map _ (List.filter_sublist _)) hids
    have hpnodup : ((watchdogPending nowMs db).map (·.checkpointId)).Nodup := by
      rw [hpend]
      exact pendingIds_nodup nowMs _ _ hidnodup
    have hmemP : ∀ cid, cid ∈ (watchdogPending nowMs db).map (·.checkpointId) ↔
        cid ∈ (overdueQuery db.checkpoints (thresholdMs nowMs)).map (·.id) ∧
          cid ∉ existingAlertIds db.alerts
            ((overdueQuery db.checkpoints (thresholdMs nowMs)).map (·.id)) := by
      intro cid
      rw [hpend]
      exact mem_alertsToCreate_ids ..
    have hcount : ∀ cid, countOpen (runWatchdog nowMs db).1.alerts cid
        = countOpen db.alerts cid
          + ((watchdogPending nowMs db).map (·.checkpointId)).countP (fun x => x == cid) := by
      intro cid
      rw [runWatchdog_alerts_eq nowMs db hp, countOpen_append, countOpen_mkAlerts]
    have hzero : ∀ cid, cid ∈ (watchdogPending nowMs db).map (·.checkpointId) →
        countOpen db.alerts cid = 0 := by
      intro cid hm
      rcases (hmemP cid).mp hm with ⟨hin, hnot⟩
      by_contra hne
      exact hnot ((mem_existing_iff_countOpen db.alerts _ cid hin).mpr
        (Nat.pos_of_ne_zero hne))
    have hone : ∀ c ∈ overdueQuery db.checkpoints (thresholdMs nowMs),
        countOpen (runWatchdog nowMs db).1.alerts c.id = 1 := by
      intro c hc
      have hcid : c.id ∈ (overdueQuery db.checkpoints (thresholdMs nowMs)).map (·.id) :=
        List.mem_map.mpr ⟨c, hc, rfl⟩
      rw [hcount c.id]
      by_cases hm : c.id ∈ existingAlertIds db.alerts
          ((overdueQuery db.checkpoints (thresholdMs nowMs)).map (·.id))
      · have hpos : 0 < countOpen db.alerts c.id :=
          (mem_existing_iff_countOpen db.alerts _ c.id hcid).mp hm
        have hle := hinv c.id
        have hnotp : c.id ∉ (watchdogPending nowMs db).map (·.checkpointId) := by
          intro hmm
          exact ((hmemP c.id).mp hmm).2 hm
        rw [countP_beq_eq_count, List.count_eq_zero.mpr hnotp]
        omega
      · have h0 : countOpen db.alerts c.id = 0 := by
          by_contra hne
          exact hm ((mem_existing_iff_countOpen db.alerts _ c.id hcid).mpr
            (Nat.pos_of_ne_zero hne))
        have hmm : c.id ∈ (watchdogPending nowMs db).map (·.checkpointId) :=
          (hmemP c.id).mpr ⟨hcid, hm⟩
        rw [countP_beq_eq_count, List.count_eq_one_of_mem hpnodup hmm]
        omega
    refine ⟨?_, ?_, hone, ?_⟩
    · intro a ha
      rw [runWatchdog_alerts_eq nowMs db hp, List.drop_left] at ha
      rcases List.mem_map.mp ha with ⟨p, hpmem, rfl⟩
      exact hzero p.checkpointId (List.mem_map.mpr ⟨p, hpmem, rfl⟩)
    · intro cid
      rw [hcount cid]
      by_cases hm : cid ∈ (watchdogPending nowMs db).map (·.checkpointId)
      · rw [countP_beq_eq_count, List.count_eq_one_of_mem hpnodup hm, hzero cid hm]
      · rw [countP_beq_eq_count, List.count_eq_zero.mpr hm]
        have := hinv cid
        omega
    · -- the second run creates nothing
      apply runWatchdog_of_pending_nil
      have hcps := runWatchdog_checkpoints_eq nowMs db hp
      have hov2 := overdueQuery_applyStatusBatch nowMs (thresholdMs nowMs) db.checkpoints
        ((watchdogPending nowMs db).map (·.checkpointId))
      have hids2 : (overdueQuery (runWatchdog nowMs db).1.checkpoints (thresholdMs nowMs)).map (·.id)
          = (overdueQuery db.checkpoints (thresholdMs nowMs)).map (·.id) := by
        rw [hcps, hov2, List.map_map]
        refine List.map_congr_left (fun c _ => ?_)
        by_cases hc : ((watchdogPending nowMs db).map (·.checkpointId)).contains c.id = true
        · rw [Function.comp_apply, if_pos hc]
        · rw [Function.comp_apply, if_neg hc]
      unfold watchdogPending
      by_cases hoe : (overdueQuery (runWatchdog nowMs db).1.checkpoints (thresholdMs nowMs)).isEmpty = true
      · rw [if_pos hoe]
      · rw [if_neg hoe]
        unfold alertsToCreate
        rw [List.map_eq_nil_iff]
        refine List.filter_eq_nil_iff.mpr (fun c' hc' => ?_)
        have hcid2 : c'.id ∈ (overdueQuery (runWatchdog nowMs db).1.checkpoints
            (thresholdMs nowMs)).map (·.id) := List.mem_map.mpr ⟨c', hc', rfl⟩
        have hcid1 : c'.id ∈ (overdueQuery db.checkpoints (thresholdMs nowMs)).map (·.id) := by
          rw [← hids2]; exact hcid2
        rcases List.mem_map.mp hcid1 with ⟨c0, hc0, hc0id⟩
        have hpos : 0 < countOpen (runWatchdog nowMs db).1.alerts c'.id := by
          rw [← hc0id, hone c0 hc0]
          omega
        have hmem2 : c'.id ∈ existingAlertIds (runWatchdog nowMs db).1.alerts
            ((overdueQuery (runWatchdog nowMs db).1.checkpoints (thresholdMs nowMs)).map (·.id)) :=
          (mem_existing_iff_countOpen _ _ c'.id hcid2).mpr hpos
        have hct : (existingAlertIds (runWatchdog nowMs db).1.alerts
            ((overdueQuery (runWatchdog nowMs db).1.checkpoints
              (thresholdMs nowMs)).map (·.id))).contains c'.id = true :=
          contains_true_iff.mpr hmem2
        rw [hct]
        decide

/-- The invariant holds for the empty alert list. -/
lemma countOpen_nil_le_one : ∀ cid, countOpen ([] : List Alert) cid ≤ 1 := by
  intro cid
  simp [countOpen]

theorem watchdog_idempotent_invariant_witness :
    ((dbOne.checkpoints.map (·.id)).Nodup ∧ ∀ cid, countOpen dbOne.alerts cid ≤ 1)
    ∧ (∀ c ∈ overdueQuery dbOne.checkpoints (thresholdMs 100000000),
        countOpen (runWatchdog 100000000 dbOne).1.alerts c.id = 1) :=
  ⟨⟨by decide, countOpen_nil_le_one⟩,
    (watchdog_idempotent_invariant 100000000 dbOne (by decide) countOpen_nil_le_one).2.2.1⟩

/-! ## The naive nested-loop predecessor (C9)

`checkSlaCompliance` of the unoptimized design: loop over all buildings,
loop over the building's checkpoints, query the last cleaning log per
checkpoint, compare against the threshold, dedup with a per-checkpoint
query, `add` one alert document at a time. -/

/-- `orderBy("created_at","desc").limit(1)`: the `created_at` of the most
recent cleaning log of the checkpoint, `new Date(0)` (epoch, 0 ms) when
no log exists. -/
def naiveLastCleanedMs (logs : List CleaningLogDoc) (cpId : String) : Int :=
  match (logs.filter (fun l => l.checkpoint_id == cpId)).map (·.created_at) with
  | [] => 0
  | t :: ts => ts.foldl max t

/-- The alert document the naive watchdog `add`s: no `details` field;
`last_cleaned_at` is `lastCleanedAt.toISOString()`, modelled by an
injective rendering of the millisecond value (no claim reads its text). -/
def naiveMkAlert (nowMs : Int) (buildingId cpId : String) (lastCleanedMs : Int) : Alert :=
  { building_id := buildingId
    checkpoint_id := cpId
    type := "SLA_MISSING_CLEAN"
    severity := "MEDIUM"
    status := "OPEN"
    message := "Area has not been cleaned in over 4 hours."
    details := none
    last_cleaned_at := "iso:" ++ toString lastCleanedMs
    created_at := some nowMs }

/-- Body of the naive inner loop for one checkpoint (its `building_id`
equals the enclosing building's id by the snapshot filter): breach check,
per-checkpoint dedup query, immediate `add`. -/
def naiveVisit (nowMs : Int) (acc : Store) (c : Checkpoint) : Store :=
  if naiveLastCleanedMs acc.cleaning_logs c.id < thresholdMs nowMs then
    if (acc.alerts.filter (fun a => a.checkpoint_id == c.id && a.status == "OPEN"
        && a.type == "SLA_MISSING_CLEAN")).isEmpty then
      { acc with alerts := acc.alerts
          ++ [naiveMkAlert nowMs c.building_id c.id
                (naiveLastCleanedMs acc.cleaning_logs c.id)] }
    else acc
  else acc

/-- The naive nested-loop `checkSlaCompliance`. -/
def checkSlaComplianceNaive (nowMs : Int) (db : Store) : Store :=
  db.buildings.foldl (fun acc b =>
    (acc.checkpoints.filter (fun c => c.building_id == b.id)).foldl
      (naiveVisit nowMs) acc) db

/-- The checkpoint ids for which the naive run created an alert. -/
def naiveCreatedIds (nowMs : Int) (db : Store) : List String :=
  ((checkSlaComplianceNaive nowMs db).alerts.drop db.alerts.length).map (·.checkpoint_id)

/-- Breach-and-no-open-alert condition of the naive loop, evaluated
against the initial store. -/
def naiveCond (nowMs : Int) (db : Store) (c : Checkpoint) : Bool :=
  decide (naiveLastCleanedMs db.cleaning_logs c.id < thresholdMs nowMs)
    && (db.alerts.filter (fun a => a.checkpoint_id == c.id && a.status == "OPEN"
        && a.type == "SLA_MISSING_CLEAN")).isEmpty

lemma naiveVisit_checkpoints (nowMs : Int) (acc : Store) (c : Checkpoint) :
    (naiveVisit nowMs acc c).checkpoints = acc.checkpoints := by
  unfold naiveVisit
  split_ifs <;> rfl

lemma foldl_naiveVisit_checkpoints (nowMs : Int) :
    ∀ (l : List Checkpoint) (acc : Store),
      (l.foldl (naiveVisit nowMs) acc).checkpoints = acc.checkpoints
  | [], acc => rfl
  | c :: t, acc => by
    rw [List.foldl_cons, foldl_naiveVisit_checkpoints nowMs t, naiveVisit_checkpoints]

/-- The traversal order of the nested loops: all checkpoints of the first
building, then of the second, and so on. -/
def naiveTraversal (db : Store) : List Checkpoint :=
  db.buildings.flatMap (fun b => db.checkpoints.filter (fun c => c.building_id == b.id))

lemma naive_flatten (nowMs : Int) (db : Store) :
    ∀ (bs : List BuildingDoc) (acc : Store), acc.checkpoints = db.checkpoints →
      bs.foldl (fun acc b =>
          (acc.checkpoints.filter (fun c => c.building_id == b.id)).foldl
            (naiveVisit nowMs) acc) acc
        = (bs.flatMap (fun b =>
            db.checkpoints.filter (fun c => c.building_id == b.id))).foldl
            (naiveVisit nowMs) acc
  | [], acc, _ => rfl
  | b :: bs, acc, h => by
    rw [List.foldl_cons, List.flatMap_cons, List.foldl_append, h]
    exact naive_flatten nowMs db bs _
      (by rw [foldl_naiveVisit_checkpoints]; exact h)

lemma naiveVisit_on_extended (nowMs : Int) (db : Store) (added : List Alert)
    (c : Checkpoint) (hadd : ∀ a ∈ added, a.checkpoint_id ≠ c.id) :
    naiveVisit nowMs { db with alerts := db.alerts ++ added } c
      = if naiveCond nowMs db c then
          { db with alerts := db.alerts ++ (added
              ++ [naiveMkAlert nowMs c.building_id c.id
                    (naiveLastCleanedMs db.cleaning_logs c.id)]) }
        else { db with alerts := db.alerts ++ added } := by
  unfold naiveVisit naiveCond
  dsimp only
  have hfil : added.filter (fun a => a.checkpoint_id == c.id && a.status == "OPEN"
      && a.type == "SLA_MISSING_CLEAN") = [] := by
    refine List.filter_eq_nil_iff.mpr (fun a ha => ?_)
    simp [hadd a ha]
  by_cases h1 : naiveLastCleanedMs db.cleaning_logs c.id < thresholdMs nowMs
  · rw [if_pos h1]
    have hd : decide (naiveLastCleanedMs db.cleaning_logs c.id < thresholdMs nowMs) = true :=
      decide_eq_true h1
    rw [hd, Bool.true_and, List.filter_append, hfil, List.append_nil]
    by_cases h2 : (db.alerts.filter (fun a => a.checkpoint_id == c.id && a.status == "OPEN"
        && a.type == "SLA_MISSING_CLEAN")).isEmpty = true
    · rw [if_pos h2, if_pos h2, List.append_assoc]
    · rw [if_neg h2, if_neg h2]
  · rw [if_neg h1]
    have hd : decide (naiveLastCleanedMs db.cleaning_logs c.id < thresholdMs nowMs) = false :=
      decide_eq_false h1
    rw [hd, Bool.false_and]
    rfl

lemma naive_foldl_alerts (nowMs : Int) (db : Store) :
    ∀ (T : List Checkpoint) (added : List Alert),
      (∀ a ∈ added, a.checkpoint_id ∉ T.map (·.id)) →
      (T.map (·.id)).Nodup →
      (T.foldl (naiveVisit nowMs) { db with alerts := db.alerts ++ added }).alerts
        = db.alerts ++ added
          ++ (T.filter (naiveCond nowMs db)).map
              (fun c => naiveMkAlert nowMs c.building_id c.id
                (naiveLastCleanedMs db.cleaning_logs c.id))
  | [], added, _, _ => by simp
  | c :: T, added, hadd, hnod => by
    rw [List.foldl_cons, naiveVisit_on_extended nowMs db added c
      (fun a ha he => hadd a ha (by rw [he]; exact List.mem_cons_self ..))]
    rw [List.map_cons] at hnod
    rcases List.nodup_cons.mp hnod with ⟨hcnot, hnodT⟩
    by_cases hcond : naiveCond nowMs db c = true
    · rw [if_pos hcond, List.filter_cons_of_pos hcond, List.map_cons]
      rw [naive_foldl_alerts nowMs db T
        (added ++ [naiveMkAlert nowMs c.building_id c.id
          (naiveLastCleanedMs db.cleaning_logs c.id)])
        (by
          intro a ha
          rcases List.mem_append.mp ha with h | h
          · exact fun hm => hadd a h (List.mem_cons_of_mem _ hm)
          · rcases List.mem_singleton.mp h with rfl
            exact hcnot)
        hnodT]
      simp [List.append_assoc]
    · rw [if_neg hcond, List.filter_cons_of_neg hcond]
      exact naive_foldl_alerts nowMs db T added
        (fun a ha hm => hadd a ha (List.mem_cons_of_mem _ hm)) hnodT

lemma naive_run_alerts (nowMs : Int) (db : Store)
    (hT : ((naiveTraversal db).map (·.id)).Nodup) :
    (checkSlaComplianceNaive nowMs db).alerts
      = db.alerts ++ ((naiveTraversal db).filter (naiveCond nowMs db)).map
          (fun c => naiveMkAlert nowMs c.building_id c.id
            (naiveLastCleanedMs db.cleaning_logs c.id)) := by
  unfold checkSlaComplianceNaive
  rw [naive_flatten nowMs db db.buildings db rfl]
  have hdb : ({ db with alerts := db.alerts ++ [] } : Store) = db := by
    rw [List.append_nil]
  calc ((naiveTraversal db).foldl (naiveVisit nowMs) db).alerts
      = ((naiveTraversal db).foldl (naiveVisit nowMs)
          { db with alerts := db.alerts ++ [] }).alerts := by rw [hdb]
    _ = db.alerts ++ [] ++ ((naiveTraversal db).filter (naiveCond nowMs db)).map
          (fun c => naiveMkAlert nowMs c.building_id c.id
            (naiveLastCleanedMs db.cleaning_logs c.id)) :=
        naive_foldl_alerts nowMs db (naiveTraversal db) [] (by simp) hT
    _ = _ := by rw [List.append_nil]

lemma traversal_nodup (db : Store)
    (hcnodup : (db.checkpoints.map (·.id)).Nodup)
    (hbnodup : (db.buildings.map (·.id)).Nodup) :
    ((naiveTraversal db).map (·.id)).Nodup := by
  unfold naiveTraversal
  rw [List.map_flatMap, List.nodup_flatMap]
  constructor
  · intro b _
    exact List.Nodup.sublist (List.Sublist.map _ (List.filter_sublist _)) hcnodup
  · have hpw : db.buildings.Pairwise (fun b1 b2 => b1.id ≠ b2.id) :=
      List.pairwise_map.mp hbnodup
    refine hpw.imp ?_
    intro b1 b2 hne x hx1 hx2
    rcases List.mem_map.mp hx1 with ⟨c1, hc1, rfl⟩
    rcases List.mem_map.mp hx2 with ⟨c2, hc2, hc2id⟩
    rcases List.mem_filter.mp hc1 with ⟨hc1m, hb1⟩
    rcases List.mem_filter.mp hc2 with ⟨hc2m, hb2⟩
    have hceq : c2 = c1 := List.inj_on_of_nodup_map hcnodup hc2m hc1m hc2id
    apply hne
    rw [← beq_iff_eq.mp hb1, ← beq_iff_eq.mp hb2, hceq]

lemma mem_traversal (db : Store) (c : Checkpoint) :
    c ∈ naiveTraversal db ↔
      c ∈ db.checkpoints ∧ ∃ b ∈ db.buildings, b.id = c.building_id := by
  unfold naiveTraversal
  rw [List.mem_flatMap]
  constructor
  · rintro ⟨b, hb, hc⟩
    rcases List.mem_filter.mp hc with ⟨hcm, hbeq⟩
    exact ⟨hcm, b, hb, (beq_iff_eq.mp hbeq).symm⟩
  · rintro ⟨hcm, b, hb, hbid⟩
    exact ⟨b, hb, List.mem_filter.mpr ⟨hcm, beq_iff_eq.mpr hbid.symm⟩⟩

lemma naive_dedup_isEmpty_iff (alerts : List Alert) (cid : String) :
    (alerts.filter (fun a => a.checkpoint_id == cid && a.status == "OPEN"
        && a.type == "SLA_MISSING_CLEAN")).isEmpty = true
      ↔ countOpen alerts cid = 0 := by
  rw [List.isEmpty_iff, List.filter_eq_nil_iff]
  constructor
  · intro h
    by_contra hne
    rcases (countOpen_pos_iff alerts cid).mp (Nat.pos_of_ne_zero hne) with
      ⟨a, ha, h1, h2, h3⟩
    exact h a ha (by simp [h1, h2, h3])
  · intro h a ha hcond
    simp only [Bool.and_eq_true, beq_iff_eq] at hcond
    have hpos : 0 < countOpen alerts cid :=
      (countOpen_pos_iff alerts cid).mpr ⟨a, ha, hcond.1.1, hcond.2, hcond.1.2⟩
    omega

lemma naiveCreatedIds_eq (nowMs : Int) (db : Store)
    (hT : ((naiveTraversal db).map (·.id)).Nodup) :
    naiveCreatedIds nowMs db
      = ((naiveTraversal db).filter (naiveCond nowMs db)).map (·.id) := by
  unfold naiveCreatedIds
  rw [naive_run_alerts nowMs db hT, List.drop_left, List.map_map]
  exact List.map_congr_left (fun c _ => rfl)

/-- Claim C9 (amended): on a store with unique checkpoint and building
ids, where every checkpoint is active, its denormalized
`last_cleaned_timestamp` equals the `created_at` of its most recent
cleaning log (epoch when no log exists), AND every checkpoint's building
exists in the buildings collection, the naive nested-loop watchdog and
the optimized single-query watchdog create new alerts for exactly the
same set of checkpoint identifiers. -/
theorem naive_optimized_same_alert_set (nowMs : Int) (db : Store)
    (hact : ∀ c ∈ db.checkpoints, c.is_active = true)
    (hts : ∀ c ∈ db.checkpoints,
        c.last_cleaned_timestamp = some (naiveLastCleanedMs db.cleaning_logs c.id))
    (hbld : ∀ c ∈ db.checkpoints, ∃ b ∈ db.buildings, b.id = c.building_id)
    (hcnodup : (db.checkpoints.map (·.id)).Nodup)
    (hbnodup : (db.buildings.map (·.id)).Nodup) :
    ∀ cid, cid ∈ naiveCreatedIds nowMs db ↔
      cid ∈ (watchdogPending nowMs db).map (·.checkpointId) := by
  have hover : ∀ c, c ∈ overdueQuery db.checkpoints (thresholdMs nowMs) ↔
      c ∈ db.checkpoints ∧
        naiveLastCleanedMs db.cleaning_logs c.id < thresholdMs nowMs := by
    intro c
    rw [mem_overdueQuery]
    constructor
    · rintro ⟨hcm, -, t, hteq, htlt⟩
      rw [hts c hcm] at hteq
      cases hteq
      exact ⟨hcm, htlt⟩
    · rintro ⟨hcm, hlt⟩
      exact ⟨hcm, hact c hcm, naiveLastCleanedMs db.cleaning_logs c.id, hts c hcm, hlt⟩
  have hL : ∀ cid, cid ∈ naiveCreatedIds nowMs db ↔
      ∃ c ∈ db.checkpoints, c.id = cid ∧
        naiveLastCleanedMs db.cleaning_logs c.id < thresholdMs nowMs ∧
        countOpen db.alerts cid = 0 := by
    intro cid
    rw [naiveCreatedIds_eq nowMs db (traversal_nodup db hcnodup hbnodup)]
    constructor
    · intro h
      rcases List.mem_map.mp h with ⟨c, hc, rfl⟩
      rcases List.mem_filter.mp hc with ⟨hct, hcond⟩
      rcases (mem_traversal db c).mp hct with ⟨hcm, -⟩
      unfold naiveCond at hcond
      rcases Bool.and_eq_true_iff.mp hcond with ⟨hlt, hemp⟩
      exact ⟨c, hcm, rfl, of_decide_eq_true hlt,
        (naive_dedup_isEmpty_iff db.alerts c.id).mp hemp⟩
    · rintro ⟨c, hcm, rfl, hlt, hcnt⟩
      refine List.mem_map.mpr ⟨c, List.mem_filter.mpr ⟨?_, ?_⟩, rfl⟩
      · exact (mem_traversal db c).mpr ⟨hcm, hbld c hcm⟩
      · unfold naiveCond
        rw [decide_eq_true hlt, Bool.true_and]
        exact (naive_dedup_isEmpty_iff db.alerts c.id).mpr hcnt
  have hR : ∀ cid, cid ∈ (watchdogPending nowMs db).map (·.checkpointId) ↔
      ∃ c ∈ db.checkpoints, c.id = cid ∧
        naiveLastCleanedMs db.cleaning_logs c.id < thresholdMs nowMs ∧
        countOpen db.alerts cid = 0 := by
    intro cid
    by_cases hov : overdueQuery db.checkpoints (thresholdMs nowMs) = []
    · rw [watchdogPending_of_overdue_empty nowMs db hov]
      simp only [List.map_nil, List.not_mem_nil, false_iff]
      rintro ⟨c, hcm, rfl, hlt, -⟩
      have : c ∈ overdueQuery db.checkpoints (thresholdMs nowMs) :=
        (hover c).mpr ⟨hcm, hlt⟩
      rw [hov] at this
      exact List.not_mem_nil c this
    · rw [watchdogPending_eq nowMs db hov, mem_alertsToCreate_ids]
      constructor
      · rintro ⟨hin, hnot⟩
        rcases List.mem_map.mp hin with ⟨c, hc, rfl⟩
        rcases (hover c).mp hc with ⟨hcm, hlt⟩
        refine ⟨c, hcm, rfl, hlt, ?_⟩
        by_contra hne
        exact hnot ((mem_existing_iff_countOpen db.alerts _ c.id hin).mpr
          (Nat.pos_of_ne_zero hne))
      · rintro ⟨c, hcm, rfl, hlt, hcnt⟩
        have hc : c ∈ overdueQuery db.checkpoints (thresholdMs nowMs) :=
          (hover c).mpr ⟨hcm, hlt⟩
        have hin : c.id ∈ (overdueQuery db.checkpoints (thresholdMs nowMs)).map (·.id) :=
          List.mem_map.mpr ⟨c, hc, rfl⟩
        refine ⟨hin, fun hmem => ?_⟩
        have := (mem_existing_iff_countOpen db.alerts _ c.id hin).mp hmem
        omega
  intro cid
  rw [hL cid, ← hR cid]

/-- Store whose single (active, never-cleaned) checkpoint references a
building that does not exist in the buildings collection. -/
def dbNoBuilding : Store :=
  { buildings := []
    checkpoints := [{ id := "cp1", building_id := "b1", is_active := true
                      last_cleaned_timestamp := some 0, last_cleaned_at := none
                      current_status := "CLEAN", updated_at := none }]
    cleaning_logs := []
    alerts := [] }

/-- Claim C9 counterexample: `dbNoBuilding` satisfies the claim's stated
precondition (every checkpoint active, denormalized timestamp equal to
the most recent log's instant — epoch here, as no log exists), yet at the
same instant with the same (empty) set of open alerts the naive watchdog
creates no alert (the buildings loop is empty) while the optimized one
creates an alert for cp1: the two runs do not create the same set. -/
theorem naive_optimized_counterexample :
    (∀ c ∈ dbNoBuilding.checkpoints, c.is_active = true)
    ∧ (∀ c ∈ dbNoBuilding.checkpoints,
        c.last_cleaned_timestamp
          = some (naiveLastCleanedMs dbNoBuilding.cleaning_logs c.id))
    ∧ naiveCreatedIds 100000000 dbNoBuilding = []
    ∧ (watchdogPending 100000000 dbNoBuilding).map (·.checkpointId) = ["cp1"]
    ∧ "cp1" ∉ naiveCreatedIds 100000000 dbNoBuilding
    ∧ "cp1" ∈ (watchdogPending 100000000 dbNoBuilding).map (·.checkpointId) := by
  refine ⟨by decide, by decide, rfl, rfl, by decide, by decide⟩

/-- Store on which the two implementations agree, for the C9 witness:
one building, one overdue checkpoint with a matching cleaning log. -/
def dbBoth : Store :=
  { buildings := [{ id := "b1" }]
    checkpoints := [{ id := "cp1", building_id := "b1", is_active := true
                      last_cleaned_timestamp := some 1000, last_cleaned_at := none
                      current_status := "CLEAN", updated_at := none }]
    cleaning_logs := [{ checkpoint_id := "cp1", created_at := 1000 }]
    alerts := [] }

theorem naive_optimized_same_alert_set_witness :
    ((∀ c ∈ dbBoth.checkpoints, c.is_active = true)
      ∧ (∀ c ∈ dbBoth.checkpoints,
          c.last_cleaned_timestamp
            = some (naiveLastCleanedMs dbBoth.cleaning_logs c.id))
      ∧ (∀ c ∈ dbBoth.checkpoints, ∃ b ∈ dbBoth.buildings, b.id = c.building_id)
      ∧ (dbBoth.checkpoints.map (·.id)).Nodup
      ∧ (dbBoth.buildings.map (·.id)).Nodup)
    ∧ ("cp1" ∈ naiveCreatedIds 100000000 dbBoth ↔
        "cp1" ∈ (watchdogPending 100000000 dbBoth).map (·.checkpointId)) :=
  ⟨⟨by decide, by decide, by decide, by decide, by decide⟩,
    naive_optimized_same_alert_set 100000000 dbBoth
      (by decide) (by decide) (by decide) (by decide) (by decide) "cp1"⟩

/-! ## PII filter (C10)

`pickPaths` / `sanitizeLogForAI` from the privacy-filtering service, and
the `AI_SAFE_FIELDS` data policy.  JavaScript objects are modelled as a
JSON-like value type; an absent property is `Option.none` at use sites. -/

/-- A JavaScript runtime value held in a document or object field. -/
inductive JVal where
  | null
  | bool (b : Bool)
  | num (n : Int)
  | str (s : String)
  | arr (elems : List JVal)
  | obj (fields : List (String × JVal))

/-- Property read on a field list (first match). -/
def assocGet : List (String × JVal) → String → Option JVal
  | [], _ => none
  | (k, v) :: rest, key => if k = key then some v else assocGet rest key

/-- `o[k]`; `none` models `undefined`.  Reads on non-objects yield
`undefined` (none of the data policy's keys is a property of a primitive
or an array). -/
def JVal.getF : JVal → String → Option JVal
  | .obj fs, k => assocGet fs k
  | _, _ => none

/-- Property write on a field list: replace in place or append. -/
def assocSet : List (String × JVal) → String → JVal → List (String × JVal)
  | [], key, v => [(key, v)]
  | (k, w) :: rest, key, v =>
    if k = key then (k, v) :: rest else (k, w) :: assocSet rest key v

/-- `o[k] = v`; a no-op on non-objects (unreachable for the data
policy's paths, where no path is a proper prefix of another). -/
def JVal.setF : JVal → String → JVal → JVal
  | .obj fs, k, v => .obj (assocSet fs k v)
  | other, _, _ => other

def JVal.isObj : JVal → Bool
  | .obj _ => true
  | _ => false

/-- JavaScript falsiness of `target[key]` in `target[key] || {}`. -/
def jsFalsy : Option JVal → Bool
  | none => true
  | some .null => true
  | some (.bool false) => true
  | some (.num 0) => true
  | some (.str "") => true
  | _ => false

/-- `path.split('.')` over the characters of the path. -/
def splitDotsAux : List Char → List Char → List (List Char)
  | [], acc => [acc.reverse]
  | ch :: cs, acc =>
    if ch = '.' then acc.reverse :: splitDotsAux cs []
    else splitDotsAux cs (ch :: acc)

def splitDots (s : String) : List String :=
  (splitDotsAux s.data []).map (fun l => String.mk l)

/-- The inner loop of `pickPaths` for one split path: break on an
undefined/null source; on the last part copy the value when defined; on
an intermediate part, when the property is undefined continue with the
remaining parts on the SAME source and target (the source's loop does
not break there), otherwise descend into `target[key] = target[key] || {}`. -/
def pickOne : Option JVal → JVal → List String → JVal
  | _, target, [] => target
  | none, target, _ :: _ => target
  | some JVal.null, target, _ :: _ => target
  | some s, target, [k] =>
    match s.getF k with
    | none => target
    | some v => target.setF k v
  | some s, target, k :: k2 :: rest =>
    match s.getF k with
    | none => pickOne (some s) target (k2 :: rest)
    | some v =>
      target.setF k (pickOne (some v)
        (if jsFalsy (target.getF k) then JVal.obj []
         else (target.getF k).getD (JVal.obj [])) (k2 :: rest))

/-- `pickPaths(obj, paths)`: fold the per-path loop over an initially
empty result object. -/
def pickPaths (o : JVal) (paths : List String) : JVal :=
  paths.foldl (fun result p => pickOne (some o) result (splitDots p)) (JVal.obj [])

/-- `AI_SAFE_FIELDS.cleaningLog` from the data policy. -/
def AI_SAFE_FIELDS_cleaningLog : List String :=
  ["id", "checkpoint_id", "building_id", "sync_status", "created_at",
   "proof_of_quality.overall_score", "proof_of_quality.detected_objects",
   "proof_of_quality.ai_model_used", "proof_of_quality.inference_time_ms",
   "proof_of_quality.passed_validation",
   "verification_result.status", "verification_result.rejection_reason"]

/-- `PII_FIELDS.cleaningLog` from the data policy. -/
def PII_FIELDS_cleaningLog : List String :=
  ["cleaner_id", "proof_of_presence.geo_location",
   "proof_of_presence.nfc_tap_timestamp"]

/-- The redaction step of `sanitizeLogForAI`:
`if (sanitized.verification_result?.rejection_reason) { ... = redactText(...) }`.
The regex engine behind `redactText` is abstracted as the function
`redact`; every statement proved below holds for every such function.
The truthy guard fires exactly for a nonempty-string rejection reason,
the only shape a well-typed log can put there. -/
def sanitizeCore (redact : String → String) (s : JVal) : JVal :=
  match s.getF "verification_result" with
  | some vr =>
    match vr.getF "rejection_reason" with
    | some (JVal.str t) =>
      if t = "" then s
      else s.setF "verification_result"
        (vr.setF "rejection_reason" (JVal.str (redact t)))
    | _ => s
  | _ => s

/-- `sanitizeLogForAI`: project onto the AI-safe paths, then redact the
rejection reason. -/
def sanitizeLogForAI (redact : String → String) (log : JVal) : JVal :=
  sanitizeCore redact (pickPaths log AI_SAFE_FIELDS_cleaningLog)

mutual
/-- All paths of an object in the `getAllPaths` sense: every key chain
leading to a node, recursing into object values only. -/
def jsonPaths : JVal → List (List String)
  | .obj fs => fieldPaths fs
  | _ => []
/-- Paths of a field list, `jsonPaths` on the object it forms. -/
def fieldPaths : List (String × JVal) → List (List String)
  | [] => []
  | (k, v) :: rest => [k] :: ((jsonPaths v).map (fun p => k :: p) ++ fieldPaths rest)
end

/-- Top-level field inventory of a cleaning log, from the union of
`AI_SAFE_FIELDS.cleaningLog` and `PII_FIELDS.cleaningLog`. -/
def LOG_TOP_KEYS : List String :=
  ["id", "checkpoint_id", "building_id", "cleaner_id", "sync_status",
   "created_at", "proof_of_quality", "proof_of_presence", "verification_result"]

/-- The log fields that hold nested objects. -/
def NESTED_LOG_KEYS : List String :=
  ["proof_of_quality", "proof_of_presence", "verification_result"]

/-- Sub-field inventory of the nested log fields. -/
def LOG_SUB_KEYS : String → List String
  | "proof_of_quality" =>
    ["overall_score", "detected_objects", "ai_model_used",
     "inference_time_ms", "passed_validation"]
  | "proof_of_presence" => ["geo_location", "nfc_tap_timestamp"]
  | "verification_result" => ["status", "rejection_reason"]
  | _ => []

/-- Shape of a nested log field: an object whose keys come from the
sub-inventory, holding primitive values. -/
def wfSubVal (k : String) : JVal → Bool
  | .obj gs => gs.all (fun kw => (LOG_SUB_KEYS k).contains kw.1 && !kw.2.isObj)
  | _ => false

/-- Modelled from the spec: the `CleaningLog` record type lives in the
repository's `types.ts`, which is not among the provided sources.  Its
shape is reconstructed from the data policy in the source
(`AI_SAFE_FIELDS.cleaningLog`, `PII_FIELDS.cleaningLog`): a flat object
whose keys come from the inventory, flat fields holding primitives (or
arrays) and the three nested groups holding objects of primitive
fields. -/
def wfLog : JVal → Bool
  | .obj fs => fs.all (fun kv =>
      LOG_TOP_KEYS.contains kv.1 &&
      (cond (NESTED_LOG_KEYS.contains kv.1) (wfSubVal kv.1 kv.2) (!kv.2.isObj)))
  | _ => false

/-- The split AI-safe paths. -/
def SAFE_SPLIT : List (List String) := AI_SAFE_FIELDS_cleaningLog.map splitDots

/-- Every key occurring in any AI-safe path. -/
def SAFE_COMPONENTS : List String :=
  ["id", "checkpoint_id", "building_id", "sync_status", "created_at",
   "proof_of_quality", "overall_score", "detected_objects", "ai_model_used",
   "inference_time_ms", "passed_validation",
   "verification_result", "status", "rejection_reason"]

lemma SAFE_SPLIT_eq :
    SAFE_SPLIT =
      [["id"], ["checkpoint_id"], ["building_id"], ["sync_status"], ["created_at"],
       ["proof_of_quality", "overall_score"], ["proof_of_quality", "detected_objects"],
       ["proof_of_quality", "ai_model_used"], ["proof_of_quality", "inference_time_ms"],
       ["proof_of_quality", "passed_validation"],
       ["verification_result", "status"], ["verification_result", "rejection_reason"]] := by
  decide

/-- A path subsumed by the safe list: a prefix of some split safe path. -/
def Subsumed (p : List String) : Prop := ∃ q ∈ SAFE_SPLIT, p <+: q

/-- Result objects whose every path is subsumed by the safe list. -/
def GoodOut (t : JVal) : Prop :=
  ∃ fs, t = JVal.obj fs ∧ ∀ p ∈ fieldPaths fs, Subsumed p

/-! ### Access lemmas for the object model -/

lemma assocGet_mem {k : String} {v : JVal} :
    ∀ {fs : List (String × JVal)}, assocGet fs k = some v → (k, v) ∈ fs := by
  intro fs
  induction fs with
  | nil => intro h; exact absurd h (by simp [assocGet])
  | cons kw rest ih =>
    obtain ⟨k', w⟩ := kw
    intro h
    by_cases he : k' = k
    · subst he
      rw [assocGet, if_pos rfl] at h
      cases h
      exact List.mem_cons_self ..
    · rw [assocGet, if_neg he] at h
      exact List.mem_cons_of_mem _ (ih h)

lemma assocGet_eq_none {key : String} :
    ∀ {fs : List (String × JVal)}, (∀ kv ∈ fs, kv.1 ≠ key) →
      assocGet fs key = none := by
  intro fs
  induction fs with
  | nil => intro _; rfl
  | cons kw rest ih =>
    obtain ⟨k', w⟩ := kw
    intro h
    rw [assocGet, if_neg (h (k', w) (List.mem_cons_self ..))]
    exact ih (fun kv hm => h kv (List.mem_cons_of_mem _ hm))

lemma jsonPaths_not_obj {v : JVal} (h : v.isObj = false) : jsonPaths v = [] := by
  cases v with
  | obj fs => simp [JVal.isObj] at h
  | null => rfl
  | bool b => rfl
  | num n => rfl
  | str s => rfl
  | arr l => rfl

lemma mem_fieldPaths_cons {a : String} {b : JVal} {r : List (String × JVal)}
    {p : List String} :
    p ∈ fieldPaths ((a, b) :: r) ↔
      p = [a] ∨ (∃ p2, p = a :: p2 ∧ p2 ∈ jsonPaths b) ∨ p ∈ fieldPaths r := by
  rw [show fieldPaths ((a, b) :: r)
      = [a] :: ((jsonPaths b).map (fun p => a :: p) ++ fieldPaths r) from rfl]
  simp only [List.mem_cons, List.mem_append, List.mem_map]
  constructor
  · rintro (h | ⟨p2, hp2, rfl⟩ | h)
    · exact Or.inl h
    · exact Or.inr (Or.inl ⟨p2, rfl, hp2⟩)
    · exact Or.inr (Or.inr h)
  · rintro (h | ⟨p2, rfl, hp2⟩ | h)
    · exact Or.inl h
    · exact Or.inr (Or.inl ⟨p2, hp2, rfl⟩)
    · exact Or.inr (Or.inr h)

lemma fieldPaths_assocSet {k : String} {v : JVal} :
    ∀ {fs : List (String × JVal)} {p : List String},
      p ∈ fieldPaths (assocSet fs k v) →
      p ∈ fieldPaths fs ∨ p = [k] ∨ ∃ p2, p = k :: p2 ∧ p2 ∈ jsonPaths v := by
  intro fs
  induction fs with
  | nil =>
    intro p hp
    rw [show assocSet [] k v = [(k, v)] from rfl] at hp
    rcases mem_fieldPaths_cons.mp hp with h | ⟨p2, hp2, hmem⟩ | h
    · exact Or.inr (Or.inl h)
    · exact Or.inr (Or.inr ⟨p2, hp2, hmem⟩)
    · exact absurd h (by simp [fieldPaths])
  | cons kw rest ih =>
    obtain ⟨k', w⟩ := kw
    intro p hp
    by_cases he : k' = k
    · subst he
      rw [assocSet, if_pos rfl] at hp
      rcases mem_fieldPaths_cons.mp hp with h | ⟨p2, hp2, hmem⟩ | h
      · exact Or.inr (Or.inl (by rw [h]))
      · exact Or.inr (Or.inr ⟨p2, by rw [hp2], hmem⟩)
      · exact Or.inl (mem_fieldPaths_cons.mpr (Or.inr (Or.inr h)))
    · rw [assocSet, if_neg he] at hp
      rcases mem_fieldPaths_cons.mp hp with h | ⟨p2, hp2, hmem⟩ | h
      · exact Or.inl (mem_fieldPaths_cons.mpr (Or.inl h))
      · exact Or.inl (mem_fieldPaths_cons.mpr (Or.inr (Or.inl ⟨p2, hp2, hmem⟩)))
      · rcases ih h with h1 | h1 | h1
        · exact Or.inl (mem_fieldPaths_cons.mpr (Or.inr (Or.inr h1)))
        · exact Or.inr (Or.inl h1)
        · exact Or.inr (Or.inr h1)

lemma mem_fieldPaths_of_assocGet {a : String} {w : JVal} :
    ∀ {fs : List (String × JVal)}, assocGet fs a = some w →
      ∀ {p : List String}, p ∈ jsonPaths w → (a :: p) ∈ fieldPaths fs := by
  intro fs
  induction fs with
  | nil => intro h; exact absurd h (by simp [assocGet])
  | cons kw rest ih =>
    obtain ⟨k', v'⟩ := kw
    intro h p hp
    by_cases he : k' = a
    · subst he
      rw [assocGet, if_pos rfl] at h
      cases h
      exact mem_fieldPaths_cons.mpr (Or.inr (Or.inl ⟨p, rfl, hp⟩))
    · rw [assocGet, if_neg he] at h
      exact mem_fieldPaths_cons.mpr (Or.inr (Or.inr (ih h hp)))

lemma assocGet_key_path {k : String} {v : JVal} :
    ∀ {fs : List (String × JVal)}, assocGet fs k = some v → [k] ∈ fieldPaths fs := by
  intro fs
  induction fs with
  | nil => intro h; exact absurd h (by simp [assocGet])
  | cons kw rest ih =>
    obtain ⟨k', w⟩ := kw
    intro h
    by_cases he : k' = k
    · subst he
      exact mem_fieldPaths_cons.mpr (Or.inl rfl)
    · rw [assocGet, if_neg he] at h
      exact mem_fieldPaths_cons.mpr (Or.inr (Or.inr (ih h)))

lemma mem_of_pre {p q : List String} (h : p <+: q) {x : String} (hx : x ∈ p) :
    x ∈ q := by
  rcases h with ⟨r, rfl⟩
  exact List.mem_append.mpr (Or.inl hx)

/-! ### Well-typed log extraction lemmas -/

lemma wfLog_obj {log : JVal} (h : wfLog log = true) :
    ∃ fs, log = JVal.obj fs := by
  cases log with
  | obj fs => exact ⟨fs, rfl⟩
  | null => exact absurd h (by simp [wfLog])
  | bool b => exact absurd h (by simp [wfLog])
  | num n => exact absurd h (by simp [wfLog])
  | str s => exact absurd h (by simp [wfLog])
  | arr l => exact absurd h (by simp [wfLog])

lemma bool_not_true {b : Bool} (h : (!b) = true) : b = false := by
  cases hb : b
  · rfl
  · rw [hb] at h
    exact absurd h (by decide)

lemma wfLog_field {fs : List (String × JVal)} (h : wfLog (JVal.obj fs) = true)
    {k : String} {v : JVal} (hmem : (k, v) ∈ fs) :
    LOG_TOP_KEYS.contains k = true ∧
      (cond (NESTED_LOG_KEYS.contains k) (wfSubVal k v) (!v.isObj)) = true := by
  unfold wfLog at h
  rw [List.all_eq_true] at h
  have h2 := h (k, v) hmem
  dsimp only at h2
  exact Bool.and_eq_true_iff.mp h2

lemma wfLog_top_keys {fs : List (String × JVal)} (h : wfLog (JVal.obj fs) = true)
    {k : String} {v : JVal} (hmem : (k, v) ∈ fs) : k ∈ LOG_TOP_KEYS :=
  contains_true_iff.mp (wfLog_field h hmem).1

lemma wfLog_flat {fs : List (String × JVal)} (h : wfLog (JVal.obj fs) = true)
    {k : String} {v : JVal} (hmem : (k, v) ∈ fs)
    (hkn : k ∉ NESTED_LOG_KEYS) : v.isObj = false := by
  have h2 := (wfLog_field h hmem).2
  rw [contains_false_iff.mpr hkn, Bool.cond_false] at h2
  exact bool_not_true h2

lemma wfLog_nested {fs : List (String × JVal)} (h : wfLog (JVal.obj fs) = true)
    {k : String} {v : JVal} (hmem : (k, v) ∈ fs)
    (hkn : k ∈ NESTED_LOG_KEYS) :
    ∃ gs, v = JVal.obj gs ∧
      ∀ kw ∈ gs, kw.1 ∈ LOG_SUB_KEYS k ∧ kw.2.isObj = false := by
  have h2 := (wfLog_field h hmem).2
  rw [contains_true_iff.mpr hkn, Bool.cond_true] at h2
  cases v with
  | obj gs =>
    refine ⟨gs, rfl, fun kw hkw => ?_⟩
    unfold wfSubVal at h2
    rw [List.all_eq_true] at h2
    have h3 := Bool.and_eq_true_iff.mp (h2 kw hkw)
    exact ⟨contains_true_iff.mp h3.1, bool_not_true h3.2⟩
  | null => exact absurd h2 (by simp [wfSubVal])
  | bool b => exact absurd h2 (by simp [wfSubVal])
  | num n => exact absurd h2 (by simp [wfSubVal])
  | str s => exact absurd h2 (by simp [wfSubVal])
  | arr l => exact absurd h2 (by simp [wfSubVal])

/-! ### Every path the projection writes is a prefix of a safe path -/

lemma pickOne_single_good {log t : JVal} {k : String}
    (hwf : wfLog log = true) (ht : GoodOut t)
    (hk : Subsumed [k]) (hkn : k ∉ NESTED_LOG_KEYS) :
    GoodOut (pickOne (some log) t [k]) := by
  obtain ⟨fs, rfl⟩ := wfLog_obj hwf
  obtain ⟨ts, rfl, hts⟩ := ht
  cases hv : assocGet fs k with
  | none =>
    simp only [pickOne, JVal.getF, hv]
    exact ⟨ts, rfl, hts⟩
  | some v =>
    simp only [pickOne, JVal.getF, hv, JVal.setF]
    refine ⟨assocSet ts k v, rfl, fun p hp => ?_⟩
    rcases fieldPaths_assocSet hp with h1 | h1 | ⟨p2, hp2, hmem⟩
    · exact hts p h1
    · rw [h1]; exact hk
    · rw [jsonPaths_not_obj (wfLog_flat hwf (assocGet_mem hv) hkn)] at hmem
      exact absurd hmem (List.not_mem_nil p2)

lemma pickOne_double_good {log t : JVal} {a b : String}
    (hwf : wfLog log = true) (ht : GoodOut t)
    (hab : [a, b] ∈ SAFE_SPLIT)
    (han : a ∈ NESTED_LOG_KEYS) (hbn : b ∉ LOG_TOP_KEYS) :
    GoodOut (pickOne (some log) t [a, b]) := by
  obtain ⟨fs, rfl⟩ := wfLog_obj hwf
  obtain ⟨ts, rfl, hts⟩ := ht
  have hsub_a : Subsumed [a] := ⟨[a, b], hab, [b], rfl⟩
  have hsub_ab : Subsumed [a, b] := ⟨[a, b], hab, [], by simp⟩
  cases hva : assocGet fs a with
  | none =>
    have hvb : assocGet fs b = none :=
      assocGet_eq_none (fun kv hm he => hbn (he ▸ wfLog_top_keys hwf hm))
    simp only [pickOne, JVal.getF, hva, hvb]
    exact ⟨ts, rfl, hts⟩
  | some va =>
    obtain ⟨gs, rfl, hsubk⟩ := wfLog_nested hwf (assocGet_mem hva) han
    simp only [pickOne, JVal.getF, hva]
    generalize hch : (if jsFalsy (assocGet ts a) then JVal.obj []
      else (assocGet ts a).getD (JVal.obj [])) = child
    have hchild : ∀ p ∈ jsonPaths child, Subsumed (a :: p) := by
      rw [← hch]
      cases hold : assocGet ts a with
      | none =>
        intro p hp
        rw [if_pos (by rw [show jsFalsy none = true from rfl])] at hp
        exact absurd hp (by simp [jsonPaths, fieldPaths])
      | some w =>
        by_cases hf : jsFalsy (some w) = true
        · intro p hp
          rw [if_pos hf] at hp
          exact absurd hp (by simp [jsonPaths, fieldPaths])
        · intro p hp
          rw [if_neg hf, Option.getD_some] at hp
          exact hts (a :: p) (mem_fieldPaths_of_assocGet hold hp)
    cases hvb : assocGet gs b with
    | none =>
      simp only [pickOne, JVal.getF, hvb, JVal.setF]
      refine ⟨assocSet ts a child, rfl, fun p hp => ?_⟩
      rcases fieldPaths_assocSet hp with h1 | h1 | ⟨p2, hp2, hmem⟩
      · exact hts p h1
      · rw [h1]; exact hsub_a
      · rw [hp2]; exact hchild p2 hmem
    | some vb =>
      have hvbno : vb.isObj = false := (hsubk (b, vb) (assocGet_mem hvb)).2
      simp only [pickOne, JVal.getF, hvb]
      have hinner : ∀ p ∈ jsonPaths (child.setF b vb), Subsumed (a :: p) := by
        cases child with
        | obj cs =>
          intro p hp
          simp only [JVal.setF] at hp
          rcases fieldPaths_assocSet hp with h1 | h1 | ⟨p2, hp2, hmem⟩
          · exact hchild p h1
          · rw [h1]; exact hsub_ab
          · rw [jsonPaths_not_obj hvbno] at hmem
            exact absurd hmem (List.not_mem_nil p2)
        | null => exact hchild
        | bool x => exact hchild
        | num x => exact hchild
        | str x => exact hchild
        | arr x => exact hchild
      refine ⟨assocSet ts a (child.setF b vb), rfl, fun p hp => ?_⟩
      rcases fieldPaths_assocSet hp with h1 | h1 | ⟨p2, hp2, hmem⟩
      · exact hts p h1
      · rw [h1]; exact hsub_a
      · rw [hp2]; exact hinner p2 hmem

lemma sanitizeCore_good {redact : String → String} {s : JVal} (hs : GoodOut s) :
    GoodOut (sanitizeCore redact s) := by
  obtain ⟨fs, rfl, hfs⟩ := hs
  unfold sanitizeCore
  cases hvr : (JVal.obj fs).getF "verification_result" with
  | none => exact ⟨fs, rfl, hfs⟩
  | some vr =>
    dsimp only
    cases hrr : vr.getF "rejection_reason" with
    | none => exact ⟨fs, rfl, hfs⟩
    | some rv =>
      cases rv with
      | null => exact ⟨fs, rfl, hfs⟩
      | bool x => exact ⟨fs, rfl, hfs⟩
      | num x => exact ⟨fs, rfl, hfs⟩
      | arr x => exact ⟨fs, rfl, hfs⟩
      | obj x => exact ⟨fs, rfl, hfs⟩
      | str t =>
        dsimp only
        by_cases ht : t = ""
        · rw [if_pos ht]
          exact ⟨fs, rfl, hfs⟩
        · rw [if_neg ht]
          cases vr with
          | null => exact absurd hrr (by simp [JVal.getF])
          | bool x => exact absurd hrr (by simp [JVal.getF])
          | num x => exact absurd hrr (by simp [JVal.getF])
          | str x => exact absurd hrr (by simp [JVal.getF])
          | arr x => exact absurd hrr (by simp [JVal.getF])
          | obj gs =>
            simp only [JVal.setF]
            refine ⟨_, rfl, fun p hp => ?_⟩
            rcases fieldPaths_assocSet hp with h1 | h1 | ⟨p2, hp2, hmem⟩
            · exact hfs p h1
            · rw [h1]
              exact ⟨["verification_result", "status"], by decide, ["status"], rfl⟩
            · rw [hp2]
              rcases fieldPaths_assocSet hmem with h2 | h2 | ⟨p3, hp3, hmem3⟩
              · exact hfs _ (mem_fieldPaths_of_assocGet
                  (show assocGet fs "verification_result" = some (JVal.obj gs) from hvr) h2)
              · rw [h2]
                exact ⟨["verification_result", "rejection_reason"], by decide, [], by simp⟩
              · rw [jsonPaths_not_obj
                  (show (JVal.str (redact t)).isObj = false from rfl)] at hmem3
                exact absurd hmem3 (List.not_mem_nil p3)

instance instSubsumedDecidable (p : List String) : Decidable (Subsumed p) :=
  inferInstanceAs (Decidable (∃ q ∈ SAFE_SPLIT, p <+: q))

lemma pickPaths_good {log : JVal} (hwf : wfLog log = true) :
    GoodOut (pickPaths log AI_SAFE_FIELDS_cleaningLog) := by
  have h0 : GoodOut (JVal.obj []) := ⟨[], rfl, by simp [fieldPaths]⟩
  unfold pickPaths
  simp only [AI_SAFE_FIELDS_cleaningLog, List.foldl_cons, List.foldl_nil,
    show splitDots "id" = ["id"] from by decide,
    show splitDots "checkpoint_id" = ["checkpoint_id"] from by decide,
    show splitDots "building_id" = ["building_id"] from by decide,
    show splitDots "sync_status" = ["sync_status"] from by decide,
    show splitDots "created_at" = ["created_at"] from by decide,
    show splitDots "proof_of_quality.overall_score"
      = ["proof_of_quality", "overall_score"] from by decide,
    show splitDots "proof_of_quality.detected_objects"
      = ["proof_of_quality", "detected_objects"] from by decide,
    show splitDots "proof_of_quality.ai_model_used"
      = ["proof_of_quality", "ai_model_used"] from by decide,
    show splitDots "proof_of_quality.inference_time_ms"
      = ["proof_of_quality", "inference_time_ms"] from by decide,
    show splitDots "proof_of_quality.passed_validation"
      = ["proof_of_quality", "passed_validation"] from by decide,
    show splitDots "verification_result.status"
      = ["verification_result", "status"] from by decide,
    show splitDots "verification_result.rejection_reason"
      = ["verification_result", "rejection_reason"] from by decide]
  refine pickOne_double_good hwf ?_ (by decide) (by decide) (by decide)
  refine pickOne_double_good hwf ?_ (by decide) (by decide) (by decide)
  refine pickOne_double_good hwf ?_ (by decide) (by decide) (by decide)
  refine pickOne_double_good hwf ?_ (by decide) (by decide) (by decide)
  refine pickOne_double_good hwf ?_ (by decide) (by decide) (by decide)
  refine pickOne_double_good hwf ?_ (by decide) (by decide) (by decide)
  refine pickOne_double_good hwf ?_ (by decide) (by decide) (by decide)
  refine pickOne_single_good hwf ?_ (by decide) (by decide)
  refine pickOne_single_good hwf ?_ (by decide) (by decide)
  refine pickOne_single_good hwf ?_ (by decide) (by decide)
  refine pickOne_single_good hwf ?_ (by decide) (by decide)
  refine pickOne_single_good hwf ?_ (by decide) (by decide)
  exact h0

/-! ### The projection reads only non-PII keys -/

lemma pickOne_congr (f1 f2 : List (String × JVal)) :
    ∀ (parts : List String) (t : JVal),
      (∀ k ∈ parts, assocGet f1 k = assocGet f2 k) →
      pickOne (some (JVal.obj f1)) t parts = pickOne (some (JVal.obj f2)) t parts
  | [], _, _ => rfl
  | [k], t, h => by
    have hk := h k (List.mem_singleton.mpr rfl)
    simp only [pickOne, JVal.getF, hk]
  | k :: k2 :: rest, t, h => by
    have hk := h k (List.mem_cons_self ..)
    simp only [pickOne, JVal.getF, hk]
    cases hv : assocGet f2 k with
    | none =>
      exact pickOne_congr f1 f2 (k2 :: rest) t
        (fun x hx => h x (List.mem_cons_of_mem _ hx))
    | some v => rfl

lemma pickPaths_go_congr (f1 f2 : List (String × JVal)) :
    ∀ (ps : List String) (t : JVal),
      (∀ p ∈ ps, ∀ k ∈ splitDots p, assocGet f1 k = assocGet f2 k) →
      ps.foldl (fun r p => pickOne (some (JVal.obj f1)) r (splitDots p)) t
        = ps.foldl (fun r p => pickOne (some (JVal.obj f2)) r (splitDots p)) t
  | [], _, _ => rfl
  | p :: ps, t, h => by
    rw [List.foldl_cons, List.foldl_cons,
      pickOne_congr f1 f2 (splitDots p) t (h p (List.mem_cons_self ..))]
    exact pickPaths_go_congr f1 f2 ps _
      (fun q hq => h q (List.mem_cons_of_mem _ hq))

lemma pickPaths_congr (f1 f2 : List (String × JVal))
    (h : ∀ k, k ≠ "cleaner_id" → k ≠ "proof_of_presence" →
      assocGet f1 k = assocGet f2 k) :
    pickPaths (JVal.obj f1) AI_SAFE_FIELDS_cleaningLog
      = pickPaths (JVal.obj f2) AI_SAFE_FIELDS_cleaningLog := by
  unfold pickPaths
  refine pickPaths_go_congr f1 f2 _ _ (fun p hp k hk => ?_)
  have hall : k ∈ SAFE_COMPONENTS := by
    fin_cases hp <;>
      exact (show _ ⊆ SAFE_COMPONENTS from by decide) hk
  refine h k (fun he => ?_) (fun he => ?_)
  · rw [he] at hall
    exact absurd hall (by decide)
  · rw [he] at hall
    exact absurd hall (by decide)

/-- Claim C10: for every well-typed cleaning log, the output of
`sanitizeLogForAI` (for any redaction function) contains only paths that
are prefixes of paths listed in `AI_SAFE_FIELDS.cleaningLog` — in
particular no `cleaner_id` and no `proof_of_presence` subfield anywhere —
and two logs that differ only in the PII fields (`cleaner_id` and the
`proof_of_presence` object) sanitize to identical outputs: the result
does not depend on PII values. -/
theorem sanitizeLogForAI_pii_free (redact : String → String) (l1 l2 : JVal)
    (h1 : wfLog l1 = true) (h2 : wfLog l2 = true) :
    (∀ p ∈ jsonPaths (sanitizeLogForAI redact l1),
        (∃ q ∈ SAFE_SPLIT, p <+: q) ∧ "cleaner_id" ∉ p ∧ "proof_of_presence" ∉ p)
    ∧ (sanitizeLogForAI redact l1).getF "cleaner_id" = none
    ∧ (sanitizeLogForAI redact l1).getF "proof_of_presence" = none
    ∧ ((∀ k, k ≠ "cleaner_id" → k ≠ "proof_of_presence" → l1.getF k = l2.getF k) →
        sanitizeLogForAI redact l1 = sanitizeLogForAI redact l2) := by
  obtain ⟨fs, hout, hfs⟩ : GoodOut (sanitizeLogForAI redact l1) :=
    sanitizeCore_good (pickPaths_good h1)
  have hsafe_no_pii : ∀ q ∈ SAFE_SPLIT, "cleaner_id" ∉ q ∧ "proof_of_presence" ∉ q := by
    decide
  refine ⟨?_, ?_, ?_, ?_⟩
  · intro p hp
    rw [hout] at hp
    obtain ⟨q, hq, hpre⟩ := hfs p hp
    exact ⟨⟨q, hq, hpre⟩,
      fun hc => (hsafe_no_pii q hq).1 (mem_of_pre hpre hc),
      fun hc => (hsafe_no_pii q hq).2 (mem_of_pre hpre hc)⟩
  · rw [hout]
    show assocGet fs "cleaner_id" = none
    cases hv : assocGet fs "cleaner_id" with
    | none => rfl
    | some v =>
      exfalso
      obtain ⟨q, hq, hpre⟩ := hfs _ (assocGet_key_path hv)
      exact (hsafe_no_pii q hq).1 (mem_of_pre hpre (List.mem_singleton.mpr rfl))
  · rw [hout]
    show assocGet fs "proof_of_presence" = none
    cases hv : assocGet fs "proof_of_presence" with
    | none => rfl
    | some v =>
      exfalso
      obtain ⟨q, hq, hpre⟩ := hfs _ (assocGet_key_path hv)
      exact (hsafe_no_pii q hq).2 (mem_of_pre hpre (List.mem_singleton.mpr rfl))
  · intro hagree
    obtain ⟨f1, rfl⟩ := wfLog_obj h1
    obtain ⟨f2, rfl⟩ := wfLog_obj h2
    unfold sanitizeLogForAI
    rw [pickPaths_congr f1 f2 hagree]

/-- A concrete well-typed cleaning log carrying PII, for the C10 witness. -/
def wLog : JVal :=
  JVal.obj [("id", JVal.str "log1"), ("checkpoint_id", JVal.str "cp1"),
    ("cleaner_id", JVal.str "worker9"),
    ("proof_of_presence", JVal.obj [("geo_location", JVal.str "12.5,42.1"),
      ("nfc_tap_timestamp", JVal.num 1700000)]),
    ("verification_result", JVal.obj [("status", JVal.str "verified"),
      ("rejection_reason", JVal.str "blurry photo")])]

theorem sanitizeLogForAI_pii_free_witness :
    wfLog wLog = true
    ∧ (sanitizeLogForAI (fun s => s) wLog).getF "cleaner_id" = none
    ∧ (sanitizeLogForAI (fun s => s) wLog).getF "proof_of_presence" = none :=
  ⟨by decide,
    (sanitizeLogForAI_pii_free (fun s => s) wLog wLog (by decide) (by decide)).2.1,
    (sanitizeLogForAI_pii_free (fun s => s) wLog wLog (by decide) (by decide)).2.2.1⟩

end Cleanvee
